import Mathlib

/-!
Verification of the star-schema transformation of the airbnb ETL repository.

The transformation under study is `DataTransformer.transform`
(src/data_transformer.py): it cleans the raw calendar table, merges the
listings table with the listing-details table, builds three dimension tables
(`dim_listing`, `dim_location`, `dim_date`) with surrogate keys, and assembles
the `fact_daily_revenue` table by a chain of left merges.

Tables are modelled as lists of records, in source order, exactly as pandas
keeps DataFrame rows.  A pandas left merge (`how='left'`) is modelled by
`leftMerge`: for each left row, in order, it emits one combined row per
matching right row (in right order), or a single row with nulls for the right
side when there is no match.  `drop_duplicates(subset=ks, keep='first')` is
modelled by `dedupBy`, which keeps the first occurrence of each key.

Numeric values that pandas stores as floats (prices, coordinates) are
modelled by `Dec`, an exact decimal fraction (integer numerator over a
power-of-ten denominator) compared structurally; the transformation never
performs arithmetic on them, it only copies and compares them, so this is an
exact model of float equality for values produced by decimal parsing.
-/

namespace Airbnb

/-- An exact decimal value `num / den`, as produced by parsing a decimal
string; `den` is a power of ten.  The pipeline only copies and compares these
values, never computes with them. -/
structure Dec where
  num : Int
  den : Nat
deriving DecidableEq

/-- Interpretation of a `Dec` as a rational number. -/
def Dec.toRat (d : Dec) : ℚ := (d.num : ℚ) / (d.den : ℚ)

/-! ### Generic list operations modelling pandas primitives -/

/-- The block of output rows a single left row `a` contributes to a pandas
left merge: one row per matching right row, or a single row combined with
`none` when nothing matches. -/
def lmBlock (r : List β) (mt : α → β → Bool) (comb : α → Option β → γ) (a : α) : List γ :=
  match r.filter (mt a) with
  | [] => [comb a none]
  | ms => ms.map (fun b => comb a (some b))

/-- pandas `left.merge(right, how='left')`: left rows in order, each expanded
by its block of matches. -/
def leftMerge (l : List α) (r : List β) (mt : α → β → Bool) (comb : α → Option β → γ) :
    List γ :=
  l.flatMap (lmBlock r mt comb)

/-- Worker for `dedupBy`: drops any row whose key has already been seen. -/
def dedupByAux (f : α → κ) [DecidableEq κ] : List κ → List α → List α
  | _, [] => []
  | seen, a :: as =>
    if f a ∈ seen then dedupByAux f seen as
    else a :: dedupByAux f (f a :: seen) as

/-- pandas `drop_duplicates(subset=keys, keep='first')`: keeps the first
occurrence of every key, in order. -/
def dedupBy (f : α → κ) [DecidableEq κ] (l : List α) : List α :=
  dedupByAux f [] l

/-! ### Field parsing (Record Normalizer) -/

/-- Splits a character list on a separator character, like `str.split`. -/
def splitCharsOn (sep : Char) : List Char → List Char → List (List Char)
  | [], acc => [acc.reverse]
  | c :: cs, acc =>
    if c = sep then acc.reverse :: splitCharsOn sep cs []
    else splitCharsOn sep cs (c :: acc)

/-- Unchecked decimal-digit value of a character list. -/
def digitsVal (cs : List Char) : Nat :=
  cs.foldl (fun n c => 10 * n + (c.toNat - 48)) 0

/-- `'price'.replace(r"[\$,]", '', regex=True)`: removes every dollar sign
and comma from the string. -/
def stripCurrency (s : String) : String :=
  ⟨s.data.filter (fun c => !(c = '$' || c = ','))⟩

/-- `astype(float)` on a cleaned price string: an optional sign, digits, and
an optional fractional part; anything else fails.  The result is the exact
decimal value. -/
def parseFloat (s : String) : Option Dec :=
  let withSign : Int × List Char :=
    match s.data with
    | '-' :: rest => (-1, rest)
    | '+' :: rest => (1, rest)
    | cs => (1, cs)
  match splitCharsOn '.' withSign.2 [] with
  | [ip] =>
    if ip ≠ [] ∧ ip.all (·.isDigit) then some ⟨withSign.1 * digitsVal ip, 1⟩ else none
  | [ip, fp] =>
    if ip.all (·.isDigit) ∧ fp.all (·.isDigit) ∧ (ip ≠ [] ∨ fp ≠ []) then
      some ⟨withSign.1 * (digitsVal ip * 10 ^ fp.length + digitsVal fp), 10 ^ fp.length⟩
    else none
  | _ => none

/-- A calendar date, as produced by `pd.to_datetime`. -/
structure Date where
  year : Nat
  month : Nat
  day : Nat
deriving DecidableEq

/-- Chronological strict order on dates. -/
def Date.Lt (a b : Date) : Prop :=
  a.year < b.year ∨
    (a.year = b.year ∧ (a.month < b.month ∨ (a.month = b.month ∧ a.day < b.day)))

/-- Chronological order on dates. -/
def Date.Le (a b : Date) : Prop := Date.Lt a b ∨ a = b

instance : DecidableRel Date.Lt := fun a b =>
  inferInstanceAs (Decidable (_ ∨ _))

instance : DecidableRel Date.Le := fun a b =>
  inferInstanceAs (Decidable (_ ∨ _))

def isLeapYear (y : Nat) : Bool :=
  (y % 4 = 0 && y % 100 ≠ 0) || y % 400 = 0

def daysInMonth (y m : Nat) : Nat :=
  if m = 2 then (if isLeapYear y then 29 else 28)
  else if m = 4 ∨ m = 6 ∨ m = 9 ∨ m = 11 then 30
  else 31

/-- `pd.to_datetime` on an ISO `YYYY-MM-DD` string, validating month and day
ranges; any other shape is a parse failure. -/
def parseDate (s : String) : Option Date :=
  match splitCharsOn '-' s.data [] with
  | [ys, ms, ds] =>
    if ys ≠ [] ∧ ys.all (·.isDigit) ∧ ms ≠ [] ∧ ms.all (·.isDigit) ∧
        ds ≠ [] ∧ ds.all (·.isDigit) then
      let y := digitsVal ys
      let m := digitsVal ms
      let d := digitsVal ds
      if 1 ≤ m ∧ m ≤ 12 ∧ 1 ≤ d ∧ d ≤ daysInMonth y m then some ⟨y, m, d⟩ else none
    else none
  | _ => none

/-! ### Date attributes (`dt.day`, `dt.quarter`, `isocalendar().week`, season) -/

/-- `dt.quarter`. -/
def quarterOf (m : Nat) : Nat := (m + 2) / 3

/-- The season function of the source: Dec/Jan/Feb winter, then three months
per season. -/
def seasonOf (m : Nat) : String :=
  if m = 12 ∨ m = 1 ∨ m = 2 then "Winter"
  else if m = 3 ∨ m = 4 ∨ m = 5 then "Spring"
  else if m = 6 ∨ m = 7 ∨ m = 8 then "Summer"
  else "Fall"

/-- Days in the months strictly before month `m` of year `y`. -/
def daysBeforeMonth (y m : Nat) : Nat :=
  ((List.range (m - 1)).map (fun i => daysInMonth y (i + 1))).foldl (· + ·) 0

def dayOfYear (d : Date) : Nat := daysBeforeMonth d.year d.month + d.day

/-- Proleptic Gregorian day number (0001-01-01 is day 1, a Monday). -/
def rataDie (d : Date) : Nat :=
  365 * (d.year - 1) + ((d.year - 1) / 4 - (d.year - 1) / 100) + (d.year - 1) / 400 +
    dayOfYear d

/-- ISO weekday, Monday = 1 .. Sunday = 7. -/
def weekdayISO (d : Date) : Nat := (rataDie d - 1) % 7 + 1

/-- Number of ISO weeks in year `y` (52 or 53). -/
def weeksInYear (y : Nat) : Nat :=
  if weekdayISO ⟨y, 1, 1⟩ = 4 ∨ (isLeapYear y ∧ weekdayISO ⟨y, 1, 1⟩ = 3) then 53 else 52

/-- `dt.isocalendar().week`. -/
def isoWeek (d : Date) : Nat :=
  let w := (dayOfYear d + 10 - weekdayISO d) / 7
  if w = 0 then weeksInYear (d.year - 1)
  else if w > weeksInYear d.year then 1 else w

/-- `str.strip().str.lower()`, the normalisation applied to neighbourhood
names (and to the neighbourhood CSV's column names). -/
def normName (s : String) : String :=
  ⟨(((s.data.dropWhile Char.isWhitespace).reverse.dropWhile
      Char.isWhitespace).reverse).map Char.toLower⟩

/-! ### Source rows (the five inputs; the geojson input is unused by the
transformation and therefore not modelled) -/

/-- A raw `calendar.csv` row. -/
structure CalRow where
  listing_id : String
  date : String
  available : String
  price : String
deriving DecidableEq

/-- A `listings.csv` row (after the in-place rename of `id` to `listing_id`;
the rename only changes the column name, not the values).  `price` is the
listing's baseline price, carried through the pipeline without parsing. -/
structure ListRow where
  listing_id : String
  name : String
  host_name : String
  price : Dec
  neighbourhood_cleansed : String
  city : String
  latitude : Dec
  longitude : Dec
deriving DecidableEq

/-- A `listings_details.csv` row (after the same rename of `id`). -/
structure DetRow where
  listing_id : String
  property_type : String
  room_type : String
  description : String
deriving DecidableEq

/-- A `neighbourhoods.csv` row: neighbourhood name and its borough group. -/
structure NbRow where
  neighbourhood : String
  neighbourhood_group : String
deriving DecidableEq

/-- The four source tables consumed by the transformation. -/
structure SourceTables where
  calendar : List CalRow
  listings : List ListRow
  details : List DetRow
  neighbourhoods : List NbRow
deriving DecidableEq

/-! ### Step 1: clean calendar data -/

/-- A calendar row after Step 1: parsed date, cleaned price, occupancy flag. -/
structure CleanCalRow where
  listing_id : String
  date : Date
  price : Dec
  occupied_flag : Nat
deriving DecidableEq

/-- Errors raised by Step 1; each carries the offending field value.
`pd.to_datetime` and `astype(float)` raise on the whole column, so one bad
value aborts the batch. -/
inductive TErr where
  | badDate : String → TErr
  | badPrice : String → TErr
deriving DecidableEq

/-- Column-wise date conversion (`pd.to_datetime(calendar_df['date'])`):
fails on the first malformed date. -/
def datesOf : List CalRow → Except TErr (List Date)
  | [] => .ok []
  | c :: cs =>
    match parseDate c.date with
    | none => .error (.badDate c.date)
    | some d => (datesOf cs).map (d :: ·)

/-- Column-wise price cleaning (`replace` then `astype(float)`): fails on the
first price that is not numeric after stripping `$` and `,`. -/
def pricesOf : List CalRow → Except TErr (List Dec)
  | [] => .ok []
  | c :: cs =>
    match parseFloat (stripCurrency c.price) with
    | none => .error (.badPrice c.price)
    | some q => (pricesOf cs).map (q :: ·)

/-- Step 1 of the transformation.  The date column is converted first, then
the occupancy flag is derived (`0` iff `available == 't'`), then the price
column is cleaned; a malformed date or price fails the whole step. -/
def cleanCalendar (rows : List CalRow) : Except TErr (List CleanCalRow) :=
  match datesOf rows with
  | .error e => .error e
  | .ok ds =>
    match pricesOf rows with
    | .error e => .error e
    | .ok ps =>
      .ok ((rows.zip (ds.zip ps)).map fun cdp =>
        ⟨cdp.1.listing_id, cdp.2.1, cdp.2.2,
          if cdp.1.available = "t" then 0 else 1⟩)

/-! ### Step 2: merge listings with listing details -/

/-- A row of `merged_listings` (listings left-merged with details on
`listing_id`; detail columns are null when no detail row matches). -/
structure MergedRow where
  listing_id : String
  name : String
  host_name : String
  price : Dec
  neighbourhood_cleansed : String
  city : String
  latitude : Dec
  longitude : Dec
  property_type : Option String
  room_type : Option String
  description : Option String
deriving DecidableEq

def mergedListings (listings : List ListRow) (details : List DetRow) : List MergedRow :=
  leftMerge listings details (fun a b => decide (a.listing_id = b.listing_id))
    (fun a b =>
      ⟨a.listing_id, a.name, a.host_name, a.price, a.neighbourhood_cleansed, a.city,
        a.latitude, a.longitude, b.map (·.property_type), b.map (·.room_type),
        b.map (·.description)⟩)

/-! ### Step 3: DIM_LISTING -/

/-- The projection of `merged_listings` onto the columns selected for
`dim_listing` (line 67 of the source). -/
structure ListingSel where
  listing_id : String
  name : String
  property_type : Option String
  room_type : Option String
  host_name : String
  description : Option String
deriving DecidableEq

def projListing (m : MergedRow) : ListingSel :=
  ⟨m.listing_id, m.name, m.property_type, m.room_type, m.host_name, m.description⟩

/-- A `dim_listing` row: surrogate key, business key, and attributes. -/
structure DimListingRow where
  listing_id_surrogate : Nat
  ListingID_BK : String
  listing_name : String
  property_type : Option String
  room_type : Option String
  host : String
  description : Option String
deriving DecidableEq

/-- Builds a `dim_listing` row from a position and a surviving record:
`listing_id_surrogate` is `index + 1`. -/
def mkDimListingRow (ir : ℕ × ListingSel) : DimListingRow :=
  ⟨ir.1 + 1, ir.2.listing_id, ir.2.name, ir.2.property_type, ir.2.room_type,
    ir.2.host_name, ir.2.description⟩

/-- Step 3: project, drop full duplicates, drop duplicates by `listing_id`
keeping the first occurrence, then assign `index + 1` as the surrogate key. -/
def dimListing (merged : List MergedRow) : List DimListingRow :=
  (dedupBy (·.listing_id) (dedupBy (fun x => x) (merged.map projListing))).enum.map
    mkDimListingRow

/-! ### Step 4: DIM_LOCATION and the listing-to-location mapping -/

/-- A `temp_location` row: the location columns of a merged listing, with the
neighbourhood name normalised. -/
structure LocRow where
  listing_id : String
  neighborhood : String
  city : String
  latitude : Dec
  longitude : Dec
deriving DecidableEq

def tempLocation (merged : List MergedRow) : List LocRow :=
  merged.map fun m =>
    ⟨m.listing_id, normName m.neighbourhood_cleansed, m.city, m.latitude, m.longitude⟩

/-- The dedup key of `dim_location`: the full (neighborhood, city, latitude,
longitude) quadruple, as in line 95 of the source. -/
def locKey (t : LocRow) : String × String × Dec × Dec :=
  (t.neighborhood, t.city, t.latitude, t.longitude)

/-- A `dim_location` row. -/
structure DimLocationRow where
  location_id : Nat
  neighborhood : String
  city : String
  latitude : Dec
  longitude : Dec
  borough : Option String
deriving DecidableEq

/-- Builds a `dim_location` row from a position and a borough-resolved
record: `location_id` is `index + 1`. -/
def mkDimLocationRow (ir : ℕ × (LocRow × Option String)) : DimLocationRow :=
  ⟨ir.1 + 1, ir.2.1.neighborhood, ir.2.1.city, ir.2.1.latitude, ir.2.1.longitude,
    ir.2.2⟩

/-- The deduplicated location set left-merged with the normalised
neighbourhood-to-borough mapping (lines 95-110 of the source). -/
def locBoroughMerge (temp : List LocRow) (nbs : List NbRow) :
    List (LocRow × Option String) :=
  leftMerge (dedupBy locKey temp)
    (nbs.map fun n => (normName n.neighbourhood, n.neighbourhood_group))
    (fun a b => decide (a.neighborhood = b.1)) (fun a b => (a, b.map Prod.snd))

/-- Step 4: deduplicate `temp_location` by the quadruple, left-merge the
normalised neighbourhood-to-borough mapping, then assign `index + 1` as
`location_id` (after the borough merge, as in the source). -/
def dimLocation (temp : List LocRow) (nbs : List NbRow) : List DimLocationRow :=
  (locBoroughMerge temp nbs).enum.map mkDimLocationRow

/-- A row of `listing_location_mapping`. -/
structure MapRow where
  listing_id : String
  location_id : Option Nat
deriving DecidableEq

/-- The mapping from original listing id to `location_id`: `temp_location`
left-merged with `dim_location` on the quadruple, projected to the two id
columns, deduplicated by `listing_id` keeping the first occurrence. -/
def listingLocationMapping (temp : List LocRow) (dimLoc : List DimLocationRow) :
    List MapRow :=
  dedupBy (·.listing_id)
    (leftMerge temp dimLoc
      (fun a d => decide (locKey a = (d.neighborhood, d.city, d.latitude, d.longitude)))
      (fun a d => (⟨a.listing_id, d.map (·.location_id)⟩ : MapRow)))

/-! ### Step 5: DIM_DATE -/

/-- The columns selected for `dim_date` before the surrogate key: all are
functions of the date itself. -/
structure DateSel where
  full_date : Date
  day : Nat
  month : Nat
  quarter : Nat
  year : Nat
  week : Nat
  season : String
deriving DecidableEq

def dateSel (d : Date) : DateSel :=
  ⟨d, d.day, d.month, quarterOf d.month, d.year, isoWeek d, seasonOf d.month⟩

/-- A `dim_date` row. -/
structure DimDateRow where
  date_id : Nat
  full_date : Date
  day : Nat
  month : Nat
  quarter : Nat
  year : Nat
  week : Nat
  season : String
deriving DecidableEq

/-- Order used by `sort_values('full_date')`. -/
def dateSelLe (x y : DateSel) : Prop := Date.Le x.full_date y.full_date

instance : DecidableRel dateSelLe := fun x y =>
  inferInstanceAs (Decidable (Date.Le _ _))

instance : IsTotal DateSel dateSelLe :=
  ⟨fun x y => by
    obtain ⟨⟨y1, m1, d1⟩, _, _, _, _, _, _⟩ := x
    obtain ⟨⟨y2, m2, d2⟩, _, _, _, _, _, _⟩ := y
    simp only [dateSelLe, Date.Le, Date.Lt, Date.mk.injEq]
    omega⟩

instance : IsTrans DateSel dateSelLe :=
  ⟨fun x y z h1 h2 => by
    obtain ⟨⟨y1, m1, d1⟩, _, _, _, _, _, _⟩ := x
    obtain ⟨⟨y2, m2, d2⟩, _, _, _, _, _, _⟩ := y
    obtain ⟨⟨y3, m3, d3⟩, _, _, _, _, _, _⟩ := z
    simp only [dateSelLe, Date.Le, Date.Lt, Date.mk.injEq] at h1 h2 ⊢
    omega⟩

/-- Builds a `dim_date` row from a position and a date record: `date_id` is
`index + 1`. -/
def mkDimDateRow (ir : ℕ × DateSel) : DimDateRow :=
  ⟨ir.1 + 1, ir.2.full_date, ir.2.day, ir.2.month, ir.2.quarter, ir.2.year,
    ir.2.week, ir.2.season⟩

/-- Step 5: derive the date columns, drop duplicate rows, sort ascending by
date, then assign `index + 1` as `date_id`. -/
def dimDate (cal : List CleanCalRow) : List DimDateRow :=
  (List.insertionSort dateSelLe
    (dedupBy (fun x => x) (cal.map fun c => dateSel c.date))).enum.map mkDimDateRow

/-! ### Step 6: FACT_DAILY_REVENUE -/

/-- The working row of the fact assembly, carrying the preserved original
listing id and the raw date until they are dropped at the end.  Columns are
filled in by the successive merges. -/
structure FactMid where
  orig_listing_id : String
  date : Date
  daily_price : Dec
  occupied_flag : Nat
  price : Option Dec := none
  listing_id : Option Nat := none
  location_id : Option Nat := none
  date_id : Option Nat := none
deriving DecidableEq

/-- A final fact row.  Note on column names: the source intends to rename the
baseline price column to `default_price`, but the rename targets
`price_default`, a column that never exists (the merge suffix is only applied
to overlapping column names, and the left side's price column was already
renamed to `daily_price`), and `DataFrame.rename` silently ignores missing
keys; so the baseline price stays under the column name `price`. -/
structure FactRow where
  listing_id : Option Nat
  daily_price : Dec
  occupied_flag : Nat
  price : Option Dec
  location_id : Option Nat
  date_id : Option Nat
deriving DecidableEq

/-- The fact base: calendar columns plus the preserved original listing id. -/
def factStage0 (cal : List CleanCalRow) : List FactMid :=
  cal.map fun c =>
    { orig_listing_id := c.listing_id, date := c.date, daily_price := c.price,
      occupied_flag := c.occupied_flag }

/-- Merge in the baseline price from the listings table (left merge on the
original listing id; the listings table is NOT deduplicated here). -/
def factStage1 (s0 : List FactMid) (listings : List ListRow) : List FactMid :=
  leftMerge s0 listings (fun m l => decide (m.orig_listing_id = l.listing_id))
    (fun m l => { m with price := l.map (·.price) })

/-- Merge in the listing surrogate key from `dim_listing` (left merge on the
original listing id against `ListingID_BK`). -/
def factStage2 (s1 : List FactMid) (dimL : List DimListingRow) : List FactMid :=
  leftMerge s1 dimL (fun m d => decide (m.orig_listing_id = d.ListingID_BK))
    (fun m d => { m with listing_id := d.map (·.listing_id_surrogate) })

/-- Merge in `location_id` from the listing-to-location mapping (left merge
on the preserved original listing id). -/
def factStage3 (s2 : List FactMid) (mapping : List MapRow) : List FactMid :=
  leftMerge s2 mapping (fun m p => decide (m.orig_listing_id = p.listing_id))
    (fun m p => { m with location_id := p.bind (·.location_id) })

/-- Merge in `date_id` from `dim_date` (left merge on the date). -/
def factStage4 (s3 : List FactMid) (dimD : List DimDateRow) : List FactMid :=
  leftMerge s3 dimD (fun m d => decide (m.date = d.full_date))
    (fun m d => { m with date_id := d.map (·.date_id) })

/-- Drop the original listing id and the raw date columns. -/
def projFact (m : FactMid) : FactRow :=
  ⟨m.listing_id, m.daily_price, m.occupied_flag, m.price, m.location_id, m.date_id⟩

def factDailyRevenue (cal : List CleanCalRow) (listings : List ListRow)
    (dimL : List DimListingRow) (mapping : List MapRow) (dimD : List DimDateRow) :
    List FactRow :=
  (factStage4 (factStage3 (factStage2 (factStage1 (factStage0 cal) listings) dimL)
    mapping) dimD).map projFact

/-! ### The whole transformation -/

/-- The transformation's output.  `warnings` records the diagnostics the
transformation emits while running; the source body of
`DataTransformer.transform` contains no logging, warning or print call, so
this list is always empty. -/
structure StarSchema where
  dim_listing : List DimListingRow
  dim_location : List DimLocationRow
  dim_date : List DimDateRow
  fact_daily_revenue : List FactRow
  warnings : List String
deriving DecidableEq

/-- `DataTransformer.transform`: clean the calendar (a parse failure aborts
the whole run with no output), build the dimensions, assemble the fact
table. -/
def transform (src : SourceTables) : Except TErr StarSchema :=
  match cleanCalendar src.calendar with
  | .error e => .error e
  | .ok cal =>
    let merged := mergedListings src.listings src.details
    let dimL := dimListing merged
    let temp := tempLocation merged
    let dimLoc := dimLocation temp src.neighbourhoods
    let mapping := listingLocationMapping temp dimLoc
    let dimD := dimDate cal
    .ok ⟨dimL, dimLoc, dimD, factDailyRevenue cal src.listings dimL mapping dimD, []⟩

instance {ε α : Type} [DecidableEq ε] [DecidableEq α] : DecidableEq (Except ε α) :=
  fun x y =>
    match x, y with
    | .error a, .error b =>
      if h : a = b then isTrue (by rw [h]) else isFalse (fun hc => by cases hc; exact h rfl)
    | .error _, .ok _ => isFalse (fun hc => by cases hc)
    | .ok _, .error _ => isFalse (fun hc => by cases hc)
    | .ok a, .ok b =>
      if h : a = b then isTrue (by rw [h]) else isFalse (fun hc => by cases hc; exact h rfl)

/-! ### Column-schema model

The source mutates the caller's DataFrames in place (adding derived columns
to `calendar_df`, renaming `id` in both listings tables, rewriting the
neighbourhoods table's column names) and builds the fact table's column set
through merges, drops and renames.  The following functions model pandas
column-name algebra exactly:

  * assigning a new column appends it (an existing name is overwritten in
    place and keeps its position);
  * `DataFrame.rename` maps only the column names that are present and
    silently ignores absent keys (the default `errors='ignore'`);
  * `merge(..., on=k, suffixes=(s1, s2))` keeps the shared key column once
    and suffixes only the non-key names present on both sides;
  * `merge(..., left_on=lk, right_on=rk)` keeps both key columns and applies
    the default `_x`/`_y` suffixes to every name present on both sides. -/

def addCol (c : String) (cols : List String) : List String :=
  if c ∈ cols then cols else cols ++ [c]

def renameCol (o n : String) (cols : List String) : List String :=
  cols.map fun c => if c = o then n else c

def dropCols (ds : List String) (cols : List String) : List String :=
  cols.filter fun c => decide (c ∉ ds)

/-- Columns after `left.merge(right, on=key, suffixes=(s1, s2))`. -/
def mergeOn (key : String) (s1 s2 : String) (l r : List String) : List String :=
  (l.map fun c => if c ≠ key ∧ c ∈ r then c ++ s1 else c) ++
    ((r.filter (· ≠ key)).map fun c => if c ∈ l then c ++ s2 else c)

/-- Columns after `left.merge(right, left_on=lk, right_on=rk)` with the
default suffixes. -/
def mergeLrOn (l r : List String) : List String :=
  (l.map fun c => if c ∈ r then c ++ "_x" else c) ++
    (r.map fun c => if c ∈ l then c ++ "_y" else c)

/-- The calendar input's documented columns. -/
def calendarSourceCols : List String := ["listing_id", "date", "available", "price"]

/-- The listings input's documented columns (before the in-place rename). -/
def listingsSourceCols : List String :=
  ["id", "name", "host_name", "price", "neighbourhood_cleansed", "city",
   "latitude", "longitude"]

/-- The listing-details input's documented columns. -/
def detailsSourceCols : List String :=
  ["id", "property_type", "room_type", "description"]

/-- The neighbourhoods input's documented columns. -/
def neighbourhoodsSourceCols : List String := ["neighbourhood", "neighbourhood_group"]

/-- The columns the caller's `calendar_df` has after `transform` returns:
lines 46-50 and 126-144 of the source assign `occupied_flag`, the five date
components and `season` directly onto the input frame (and retype `date` and
`price` in place). -/
def calendarColsAfterTransform (cols : List String) : List String :=
  addCol "season" (addCol "week" (addCol "quarter" (addCol "year" (addCol "month"
    (addCol "day" (addCol "occupied_flag" cols))))))

/-- The columns the caller's `listings_df` has after `transform` returns:
line 54 renames `id` to `listing_id` with `inplace=True`. -/
def listingsColsAfterTransform (cols : List String) : List String :=
  renameCol "id" "listing_id" cols

/-- The columns the caller's `listings_details_df` has after `transform`
returns: line 55 renames `id` to `listing_id` with `inplace=True`. -/
def detailsColsAfterTransform (cols : List String) : List String :=
  renameCol "id" "listing_id" cols

/-- The columns the caller's `neighbourhoods_df` has after `transform`
returns: line 99 rewrites every column name with `strip().lower()` and line
100 assigns the normalised `neighborhood` column onto the input frame. -/
def neighbourhoodsColsAfterTransform (cols : List String) : List String :=
  addCol "neighborhood" (cols.map normName)

/-- The fact table's column list, following lines 156-203 of the source step
by step. -/
def factCols : List String :=
  let c1 := addCol "orig_listing_id" ["listing_id", "date", "price", "occupied_flag"]
  let c2 := renameCol "price" "daily_price" c1
  let c3 := mergeOn "listing_id" "" "_default" c2 ["listing_id", "price"]
  let c4 := renameCol "price_default" "default_price" c3
  let c5 := mergeLrOn c4 ["listing_id_surrogate", "ListingID_BK"]
  let c6 := dropCols ["listing_id", "ListingID_BK"] c5
  let c7 := renameCol "listing_id_surrogate" "listing_id" c6
  let c8 := mergeLrOn c7 ["listing_id", "location_id"]
  let c9 := dropCols ["listing_id_y"] c8
  let c10 := renameCol "listing_id_x" "listing_id" c9
  let c11 := dropCols ["orig_listing_id"] c10
  let c12 := mergeLrOn c11 ["date_id", "full_date"]
  dropCols ["date", "full_date"] c12

/-! ### Concrete inputs used by the claim theorems -/

/-- The two-row scenario of the specification: listing `A123` on two calendar
days, one listings row with coordinates (40.7, -74.0) and baseline price
110. -/
def scenarioSrc : SourceTables :=
  { calendar := [⟨"A123", "2021-01-01", "t", "$100.00"⟩,
                 ⟨"A123", "2021-01-02", "f", "$120.50"⟩],
    listings := [⟨"A123", "Cozy Apt", "Ann", ⟨110, 1⟩, "Downtown", "NYC",
                  ⟨407, 10⟩, ⟨-740, 10⟩⟩],
    details := [],
    neighbourhoods := [] }

/-- One calendar row, and a listings table holding two rows with the same
listing id `L1` (a duplicate natural key). -/
def dupListingSrc : SourceTables :=
  { calendar := [⟨"L1", "2021-03-05", "t", "$50"⟩],
    listings := [⟨"L1", "n1", "h1", ⟨10, 1⟩, "nb", "c", ⟨1, 1⟩, ⟨2, 1⟩⟩,
                 ⟨"L1", "n2", "h2", ⟨20, 1⟩, "nb", "c", ⟨1, 1⟩, ⟨2, 1⟩⟩],
    details := [], neighbourhoods := [] }

/-- Two listings rows sharing the coordinate pair (1, 2) but with different
cities. -/
def sharedCoordSrc : SourceTables :=
  { calendar := [],
    listings := [⟨"L1", "n1", "h1", ⟨10, 1⟩, "N", "cityA", ⟨1, 1⟩, ⟨2, 1⟩⟩,
                 ⟨"L2", "n2", "h2", ⟨20, 1⟩, "N", "cityB", ⟨1, 1⟩, ⟨2, 1⟩⟩],
    details := [], neighbourhoods := [] }

/-- A calendar row whose listing id `X9` does not occur in the listings
table. -/
def orphanCalSrc : SourceTables :=
  { calendar := [⟨"X9", "2021-05-05", "f", "$7"⟩],
    listings := [⟨"A1", "n", "h", ⟨9, 1⟩, "nb", "c", ⟨3, 1⟩, ⟨4, 1⟩⟩],
    details := [], neighbourhoods := [] }

/-- The star schema a source produces, with empty tables in the error case;
used to name the output of concrete runs. -/
def resOf (src : SourceTables) : StarSchema :=
  match transform src with
  | .ok R => R
  | .error _ => ⟨[], [], [], [], []⟩

/-- A matched one-listing, one-day input. -/
def roundTripSrc : SourceTables :=
  { calendar := [⟨"A", "2021-01-01", "t", "$5"⟩],
    listings := [⟨"A", "n", "h", ⟨9, 1⟩, "NbN", "C", ⟨3, 1⟩, ⟨4, 1⟩⟩],
    details := [], neighbourhoods := [] }

/-- Listings with a duplicated natural key `A` (conflicting attributes) and a
details row for `A`. -/
def dupKeySrc : SourceTables :=
  { calendar := [],
    listings := [⟨"A", "n1", "h1", ⟨1, 1⟩, "nb1", "c1", ⟨1, 1⟩, ⟨2, 1⟩⟩,
                 ⟨"B", "n2", "h2", ⟨2, 1⟩, "nb2", "c2", ⟨3, 1⟩, ⟨4, 1⟩⟩,
                 ⟨"A", "n3", "h3", ⟨3, 1⟩, "nb3", "c3", ⟨5, 1⟩, ⟨6, 1⟩⟩],
    details := [⟨"A", "apt", "entire", "desc"⟩], neighbourhoods := [] }

/-- A calendar containing a malformed date string. -/
def badDateSrc : SourceTables :=
  { calendar := [⟨"A", "2021-01-xx", "t", "$1"⟩],
    listings := [], details := [], neighbourhoods := [] }

/-- A calendar with two dates arriving out of chronological order. -/
def twoDateSrc : SourceTables :=
  { calendar := [⟨"A", "2021-02-03", "t", "$1"⟩, ⟨"A", "2021-01-15", "f", "$2"⟩],
    listings := [⟨"A", "n", "h", ⟨9, 1⟩, "nb", "c", ⟨3, 1⟩, ⟨4, 1⟩⟩],
    details := [], neighbourhoods := [] }

/-! ### Supporting lemmas on `find?`, `filter` and `dedupBy` -/

theorem find?_eq_head?_filter (p : α → Bool) (l : List α) :
    l.find? p = (l.filter p).head? := by
  induction l with
  | nil => rfl
  | cons a l ih =>
    cases h : p a
    · rw [List.find?_cons_of_neg _ (by simp [h]), List.filter_cons_of_neg (by simp [h]), ih]
    · rw [List.find?_cons_of_pos _ h, List.filter_cons_of_pos h, List.head?_cons]

theorem find?_congrP (p q : α → Bool) (l : List α) (h : ∀ x ∈ l, p x = q x) :
    l.find? p = l.find? q := by
  induction l with
  | nil => rfl
  | cons a l ih =>
    have ha := h a (List.mem_cons_self a l)
    cases hq : q a
    · rw [List.find?_cons_of_neg _ (by simp [ha, hq]), List.find?_cons_of_neg _ (by simp [hq])]
      exact ih fun x hx => h x (List.mem_cons_of_mem a hx)
    · rw [List.find?_cons_of_pos _ (by simp [ha, hq]), List.find?_cons_of_pos _ hq]

theorem find?_append_of_some {p : α → Bool} {l : List α} {a : α} (m : List α)
    (h : l.find? p = some a) : (l ++ m).find? p = some a := by
  induction l with
  | nil => simp at h
  | cons x l ih =>
    cases hx : p x
    · rw [List.find?_cons_of_neg _ (by simp [hx])] at h
      rw [List.cons_append, List.find?_cons_of_neg _ (by simp [hx])]
      exact ih h
    · rw [List.find?_cons_of_pos _ hx] at h
      rw [List.cons_append, List.find?_cons_of_pos _ hx]
      exact h

theorem find?_append_of_none {p : α → Bool} {l : List α} (m : List α)
    (h : l.find? p = none) : (l ++ m).find? p = m.find? p := by
  induction l with
  | nil => rfl
  | cons x l ih =>
    cases hx : p x
    · rw [List.find?_cons_of_neg _ (by simp [hx])] at h
      rw [List.cons_append, List.find?_cons_of_neg _ (by simp [hx])]
      exact ih h
    · rw [List.find?_cons_of_pos _ hx] at h
      exact absurd h (by simp)

theorem find?_filter_swap (p q : α → Bool) (l : List α) :
    (l.filter q).find? p = l.find? (fun x => p x && q x) := by
  induction l with
  | nil => rfl
  | cons a l ih =>
    cases hq : q a
    · rw [List.filter_cons_of_neg (by simp [hq]),
        List.find?_cons_of_neg _ (by simp [hq]), ih]
    · rw [List.filter_cons_of_pos hq]
      cases hp : p a
      · rw [List.find?_cons_of_neg _ (by simp [hp]),
          List.find?_cons_of_neg _ (by simp [hp]), ih]
      · rw [List.find?_cons_of_pos _ hp, List.find?_cons_of_pos _ (by simp [hp, hq])]

theorem mem_of_mem_dedupByAux {κ : Type} [DecidableEq κ] {f : α → κ} {seen : List κ}
    {l : List α} {x : α} (h : x ∈ dedupByAux f seen l) : x ∈ l := by
  induction l generalizing seen with
  | nil => simp [dedupByAux] at h
  | cons a l ih =>
    by_cases hf : f a ∈ seen
    · simp only [dedupByAux, if_pos hf] at h
      exact List.mem_cons_of_mem a (ih h)
    · simp only [dedupByAux, if_neg hf, List.mem_cons] at h
      rcases h with h | h
      · exact h ▸ List.mem_cons_self a l
      · exact List.mem_cons_of_mem a (ih h)

theorem key_not_seen_of_mem_dedupByAux {κ : Type} [DecidableEq κ] {f : α → κ}
    {seen : List κ} {l : List α} {x : α} (h : x ∈ dedupByAux f seen l) :
    f x ∉ seen := by
  induction l generalizing seen with
  | nil => simp [dedupByAux] at h
  | cons a l ih =>
    by_cases hf : f a ∈ seen
    · simp only [dedupByAux, if_pos hf] at h
      exact ih h
    · simp only [dedupByAux, if_neg hf, List.mem_cons] at h
      rcases h with rfl | h
      · exact hf
      · intro hc
        exact ih h (List.mem_cons_of_mem _ hc)

theorem pairwise_keys_dedupByAux {κ : Type} [DecidableEq κ] (f : α → κ)
    (seen : List κ) (l : List α) :
    (dedupByAux f seen l).Pairwise (fun x y => f x ≠ f y) := by
  induction l generalizing seen with
  | nil => simp [dedupByAux]
  | cons a l ih =>
    by_cases hf : f a ∈ seen
    · simp only [dedupByAux, if_pos hf]
      exact ih seen
    · simp only [dedupByAux, if_neg hf]
      refine List.Pairwise.cons ?_ (ih (f a :: seen))
      intro y hy he
      exact key_not_seen_of_mem_dedupByAux hy (he ▸ List.mem_cons_self _ _)

theorem exists_key_mem_dedupByAux {κ : Type} [DecidableEq κ] {f : α → κ}
    {seen : List κ} {l : List α} {x : α} (hx : x ∈ l) (hs : f x ∉ seen) :
    ∃ y ∈ dedupByAux f seen l, f y = f x := by
  induction l generalizing seen with
  | nil => simp at hx
  | cons a l ih =>
    by_cases hf : f a ∈ seen
    · simp only [dedupByAux, if_pos hf]
      rcases List.mem_cons.mp hx with rfl | hx2
      · exact absurd hf (by exact hs)
      · exact ih hx2 hs
    · simp only [dedupByAux, if_neg hf]
      by_cases hk : f x = f a
      · exact ⟨a, List.mem_cons_self _ _, hk.symm⟩
      · rcases List.mem_cons.mp hx with rfl | hx2
        · exact absurd rfl hk
        · obtain ⟨y, hy, hfy⟩ := ih hx2 (by
            intro hc
            rcases List.mem_cons.mp hc with hc1 | hc2
            · exact hk hc1
            · exact hs hc2)
          exact ⟨y, List.mem_cons_of_mem _ hy, hfy⟩

theorem find?_dedupByAux {κ : Type} [DecidableEq κ] (f : α → κ) (p : α → Bool)
    (hp : ∀ x y, f x = f y → p x = p y) (seen : List κ) (l : List α) :
    (dedupByAux f seen l).find? p =
      (l.filter (fun x => decide (f x ∉ seen))).find? p := by
  induction l generalizing seen with
  | nil => rfl
  | cons a l ih =>
    by_cases hf : f a ∈ seen
    · simp only [dedupByAux, if_pos hf]
      rw [ih seen, List.filter_cons_of_neg (by simp [hf])]
    · simp only [dedupByAux, if_neg hf]
      rw [List.filter_cons_of_pos (by simp [hf])]
      cases hpa : p a
      · rw [List.find?_cons_of_neg _ (by simp [hpa]),
          List.find?_cons_of_neg _ (by simp [hpa]), ih (f a :: seen),
          find?_filter_swap, find?_filter_swap]
        apply find?_congrP
        intro x _
        cases hpx : p x
        · simp
        · have hne : f x ≠ f a := by
            intro he
            have h2 := hp x a he
            rw [hpx, hpa] at h2
            simp at h2
          simp [List.mem_cons, hne]
      · rw [List.find?_cons_of_pos _ hpa, List.find?_cons_of_pos _ hpa]

theorem find?_dedupBy {κ : Type} [DecidableEq κ] (f : α → κ) (p : α → Bool)
    (hp : ∀ x y, f x = f y → p x = p y) (l : List α) :
    (dedupBy f l).find? p = l.find? p := by
  rw [dedupBy, find?_dedupByAux f p hp]
  have hfil : (l.filter fun x => decide (f x ∉ ([] : List κ))) = l :=
    List.filter_eq_self.mpr (by intro a _; simp)
  rw [hfil]

theorem map_dedupByAux {κ : Type} [DecidableEq κ] (f : α → κ) (seen : List κ)
    (l : List α) :
    (dedupByAux f seen l).map f = dedupByAux (fun k => k) seen (l.map f) := by
  induction l generalizing seen with
  | nil => rfl
  | cons a l ih =>
    by_cases hf : f a ∈ seen
    · simp [dedupByAux, hf, ih seen]
    · simp [dedupByAux, hf, ih (f a :: seen)]

theorem map_dedupBy {κ : Type} [DecidableEq κ] (f : α → κ) (l : List α) :
    (dedupBy f l).map f = dedupBy (fun k => k) (l.map f) := by
  rw [dedupBy, dedupBy, map_dedupByAux]

theorem dedupByAux_skip {κ : Type} [DecidableEq κ] {f : α → κ} {q : α → Bool}
    {seen : List κ} {l : List α} (hq : ∀ x ∈ l, q x = false → f x ∈ seen) :
    dedupByAux f seen (l.filter q) = dedupByAux f seen l := by
  induction l generalizing seen with
  | nil => rfl
  | cons a l ih =>
    cases hqa : q a
    · have hfa : f a ∈ seen := hq a (List.mem_cons_self _ _) hqa
      rw [List.filter_cons_of_neg (by simp [hqa])]
      simp only [dedupByAux, if_pos hfa]
      exact ih fun x hx => hq x (List.mem_cons_of_mem _ hx)
    · rw [List.filter_cons_of_pos hqa]
      by_cases hf : f a ∈ seen
      · simp only [dedupByAux, if_pos hf]
        exact ih fun x hx => hq x (List.mem_cons_of_mem _ hx)
      · simp only [dedupByAux, if_neg hf]
        rw [ih fun x hx h0 => List.mem_cons_of_mem _ (hq x (List.mem_cons_of_mem _ hx) h0)]

theorem dedupByAux_append_skip {κ : Type} [DecidableEq κ] {f : α → κ}
    {seen : List κ} {xs : List α} (ys : List α) (hxs : ∀ x ∈ xs, f x ∈ seen) :
    dedupByAux f seen (xs ++ ys) = dedupByAux f seen ys := by
  induction xs with
  | nil => rfl
  | cons a xs ih =>
    rw [List.cons_append]
    simp only [dedupByAux, if_pos (hxs a (List.mem_cons_self _ _))]
    exact ih fun x hx => hxs x (List.mem_cons_of_mem _ hx)

theorem dedupByAux_dedupByAux_id {κ : Type} [DecidableEq κ] [DecidableEq α]
    (f : α → κ) (l : List α) (seen : List κ) (s2 : List α) :
    dedupByAux f seen (dedupByAux (fun x => x) s2 l) =
      dedupByAux f seen (l.filter fun x => decide (x ∉ s2)) := by
  induction l generalizing seen s2 with
  | nil => rfl
  | cons a l ih =>
    by_cases ha : a ∈ s2
    · simp only [dedupByAux, if_pos ha]
      rw [ih seen s2, List.filter_cons_of_neg (by simp [ha])]
    · simp only [dedupByAux, if_neg ha]
      rw [List.filter_cons_of_pos (by simp [ha])]
      by_cases hf : f a ∈ seen
      · simp only [dedupByAux, if_pos hf]
        rw [ih seen (a :: s2)]
        have h2 : (l.filter fun x => decide (x ∉ a :: s2)) =
            (l.filter fun x => decide (x ∉ s2)).filter fun x => decide (x ≠ a) := by
          rw [List.filter_filter]
          apply List.filter_congr
          intro x _
          by_cases h3 : x = a
          · simp [h3, ha]
          · simp [h3]
        rw [h2, dedupByAux_skip]
        intro x _ h0
        have hxa : x = a := by simpa using h0
        rw [hxa]
        exact hf
      · simp only [dedupByAux, if_neg hf]
        rw [ih (f a :: seen) (a :: s2)]
        have h2 : (l.filter fun x => decide (x ∉ a :: s2)) =
            (l.filter fun x => decide (x ∉ s2)).filter fun x => decide (x ≠ a) := by
          rw [List.filter_filter]
          apply List.filter_congr
          intro x _
          by_cases h3 : x = a
          · simp [h3, ha]
          · simp [h3]
        rw [h2, dedupByAux_skip]
        intro x _ h0
        have hxa : x = a := by simpa using h0
        rw [hxa]
        exact List.mem_cons_self _ _

theorem dedupBy_dedupBy_id {κ : Type} [DecidableEq κ] [DecidableEq α]
    (f : α → κ) (l : List α) :
    dedupBy f (dedupBy (fun x => x) l) = dedupBy f l := by
  rw [dedupBy, dedupBy, dedupByAux_dedupByAux_id, dedupBy]
  have hfil : (l.filter fun x => decide (x ∉ ([] : List α))) = l :=
    List.filter_eq_self.mpr (by intro a _; simp)
  rw [hfil]

theorem dedupByAux_id_flatMap {κ : Type} [DecidableEq κ] (g : α → List κ)
    (k : α → κ) (l : List α) (hne : ∀ a ∈ l, g a ≠ [])
    (hconst : ∀ a ∈ l, ∀ x ∈ g a, x = k a) (seen : List κ) :
    dedupByAux (fun x => x) seen (l.flatMap g) =
      dedupByAux (fun x => x) seen (l.map k) := by
  induction l generalizing seen with
  | nil => rfl
  | cons a l ih =>
    rw [List.flatMap_cons, List.map_cons]
    by_cases hk : k a ∈ seen
    · rw [dedupByAux_append_skip _ (by
        intro x hx
        rw [hconst a (List.mem_cons_self _ _) x hx]
        exact hk)]
      simp only [dedupByAux, if_pos hk]
      exact ih (fun x hx => hne x (List.mem_cons_of_mem _ hx))
        (fun x hx => hconst x (List.mem_cons_of_mem _ hx)) seen
    · obtain ⟨c, cs, hgc⟩ : ∃ c cs, g a = c :: cs := by
        cases hga : g a with
        | nil => exact absurd hga (hne a (List.mem_cons_self _ _))
        | cons c cs => exact ⟨c, cs, rfl⟩
      have hc : c = k a := hconst a (List.mem_cons_self _ _) c (hgc ▸ List.mem_cons_self _ _)
      rw [hgc, List.cons_append]
      simp only [dedupByAux, if_neg (hc ▸ hk), if_neg hk]
      rw [hc, dedupByAux_append_skip _ (by
        intro x hx
        rw [hconst a (List.mem_cons_self _ _) x (hgc ▸ List.mem_cons_of_mem _ hx)]
        exact List.mem_cons_self _ _)]
      rw [ih (fun x hx => hne x (List.mem_cons_of_mem _ hx))
        (fun x hx => hconst x (List.mem_cons_of_mem _ hx)) (k a :: seen)]

/-! ### Supporting lemmas on `leftMerge` -/

theorem lmBlock_ne_nil (r : List β) (mt : α → β → Bool) (comb : α → Option β → γ)
    (a : α) : lmBlock r mt comb a ≠ [] := by
  unfold lmBlock
  cases h : r.filter (mt a) <;> simp

theorem mem_lmBlock_iff {r : List β} {mt : α → β → Bool} {comb : α → Option β → γ}
    {a : α} {x : γ} :
    x ∈ lmBlock r mt comb a ↔
      ((r.filter (mt a) = [] ∧ x = comb a none) ∨
        ∃ b ∈ r.filter (mt a), x = comb a (some b)) := by
  unfold lmBlock
  cases h : r.filter (mt a) with
  | nil => simp [h]
  | cons b bs =>
    refine ⟨fun hx => ?_, fun hx => ?_⟩
    · obtain ⟨b2, hb2, rfl⟩ := List.mem_map.mp hx
      exact Or.inr ⟨b2, hb2, rfl⟩
    · rcases hx with ⟨h0, _⟩ | ⟨b2, hb2, rfl⟩
      · exact absurd h0 (by simp)
      · exact List.mem_map.mpr ⟨b2, hb2, rfl⟩

theorem head?_lmBlock (r : List β) (mt : α → β → Bool) (comb : α → Option β → γ)
    (a : α) : (lmBlock r mt comb a).head? = some (comb a (r.find? (mt a))) := by
  unfold lmBlock
  rw [find?_eq_head?_filter]
  cases h : r.filter (mt a) <;> simp [h]

theorem leftMerge_cons (a : α) (l : List α) (r : List β) (mt : α → β → Bool)
    (comb : α → Option β → γ) :
    leftMerge (a :: l) r mt comb = lmBlock r mt comb a ++ leftMerge l r mt comb := by
  simp [leftMerge]

theorem mem_leftMerge_iff {l : List α} {r : List β} {mt : α → β → Bool}
    {comb : α → Option β → γ} {x : γ} :
    x ∈ leftMerge l r mt comb ↔ ∃ a ∈ l, x ∈ lmBlock r mt comb a :=
  List.mem_flatMap

theorem lmBlock_eq_singleton_of_unique {r : List β} {mt : α → β → Bool}
    {comb : α → Option β → γ} {a : α} (h : (r.filter (mt a)).length ≤ 1) :
    lmBlock r mt comb a = [comb a (r.find? (mt a))] := by
  unfold lmBlock
  rw [find?_eq_head?_filter]
  cases hf : r.filter (mt a) with
  | nil => simp
  | cons b bs =>
    cases bs with
    | nil => simp
    | cons b2 bs2 => rw [hf] at h; simp at h

theorem leftMerge_eq_map_of_unique {l : List α} {r : List β} {mt : α → β → Bool}
    {comb : α → Option β → γ} (h : ∀ a, (r.filter (mt a)).length ≤ 1) :
    leftMerge l r mt comb = l.map fun a => comb a (r.find? (mt a)) := by
  induction l with
  | nil => rfl
  | cons a l ih =>
    rw [leftMerge_cons, lmBlock_eq_singleton_of_unique (h a), ih, List.map_cons,
      List.singleton_append]

theorem comb_find?_mem_leftMerge {l : List α} (r : List β) (mt : α → β → Bool)
    (comb : α → Option β → γ) {a : α} (ha : a ∈ l) :
    comb a (r.find? (mt a)) ∈ leftMerge l r mt comb := by
  refine mem_leftMerge_iff.mpr ⟨a, ha, ?_⟩
  exact List.mem_of_mem_head? (by rw [head?_lmBlock]; exact rfl)

theorem find?_leftMerge {l : List α} {r : List β} {mt : α → β → Bool}
    {comb : α → Option β → γ} (P : γ → Bool) (Q : α → Bool)
    (hPQ : ∀ a bopt, P (comb a bopt) = Q a) :
    (leftMerge l r mt comb).find? P =
      (l.find? Q).map fun a => comb a (r.find? (mt a)) := by
  induction l with
  | nil => rfl
  | cons a l ih =>
    rw [leftMerge_cons]
    cases hqa : Q a
    · have hnone : (lmBlock r mt comb a).find? P = none := by
        rw [List.find?_eq_none]
        intro x hx
        rcases mem_lmBlock_iff.mp hx with ⟨_, rfl⟩ | ⟨b, _, rfl⟩ <;>
          simp [hPQ, hqa]
      rw [find?_append_of_none _ hnone, ih, List.find?_cons_of_neg _ (by simp [hqa])]
    · have hall : ∀ x ∈ lmBlock r mt comb a, P x = true := by
        intro x hx
        rcases mem_lmBlock_iff.mp hx with ⟨_, rfl⟩ | ⟨b, _, rfl⟩ <;>
          simp [hPQ, hqa]
      have hblock : (lmBlock r mt comb a).find? P = some (comb a (r.find? (mt a))) := by
        rw [find?_eq_head?_filter, List.filter_eq_self.mpr hall, head?_lmBlock]
      rw [find?_append_of_some _ hblock, List.find?_cons_of_pos _ hqa]
      rfl

theorem length_filter_le_one_of_pairwise {κ : Type} {f : α → κ} {l : List α}
    (hnd : l.Pairwise fun x y => f x ≠ f y) (p : α → Bool) (k : κ)
    (hp : ∀ x, p x = true → f x = k) : (l.filter p).length ≤ 1 := by
  induction l with
  | nil => simp
  | cons a l ih =>
    rw [List.pairwise_cons] at hnd
    cases hpa : p a
    · rw [List.filter_cons_of_neg (by simp [hpa])]
      exact ih hnd.2
    · rw [List.filter_cons_of_pos hpa]
      have hnil : l.filter p = [] := by
        rw [List.filter_eq_nil_iff]
        intro x hx hpx
        exact hnd.1 x hx (by rw [hp a hpa, hp x hpx])
      simp [hnil]

theorem find?_eq_self_of_pairwise_keys {κ : Type} [DecidableEq κ] {f : α → κ}
    {l : List α} {y : α} (hnd : l.Pairwise fun x y => f x ≠ f y) (hy : y ∈ l) :
    l.find? (fun x => decide (f x = f y)) = some y := by
  induction l with
  | nil => simp at hy
  | cons a l ih =>
    rw [List.pairwise_cons] at hnd
    rcases List.mem_cons.mp hy with rfl | hy2
    · rw [List.find?_cons_of_pos _ (by simp)]
    · rw [List.find?_cons_of_neg _ (by simp [hnd.1 y hy2]), ih hnd.2 hy2]

/-! ### Supporting lemmas on `enum` -/

theorem mem_enum_map_of_mem {l : List α} {x : α} (g : ℕ × α → β) (hx : x ∈ l) :
    ∃ i, i < l.length ∧ g (i, x) ∈ l.enum.map g := by
  obtain ⟨i, hi, rfl⟩ := List.mem_iff_getElem.mp hx
  refine ⟨i, hi, List.mem_iff_getElem.mpr ⟨i, by simp [hi], ?_⟩⟩
  rw [List.getElem_map, List.getElem_enum]

theorem enum_map_val_inj {l : List α} (g : ℕ × α → β) (idOf : β → ℕ)
    (hid : ∀ i x, idOf (g (i, x)) = i + 1) {x y : β}
    (hx : x ∈ l.enum.map g) (hy : y ∈ l.enum.map g) (h : idOf x = idOf y) :
    x = y := by
  obtain ⟨i, hi, rfl⟩ := List.mem_iff_getElem.mp hx
  obtain ⟨j, hj, rfl⟩ := List.mem_iff_getElem.mp hy
  have hi2 : i < l.length := by simpa using hi
  have hj2 : j < l.length := by simpa using hj
  rw [List.getElem_map, List.getElem_enum] at h ⊢
  rw [List.getElem_map, List.getElem_enum] at h ⊢
  rw [hid, hid] at h
  have : i = j := by omega
  subst this
  rfl

theorem map_enum_map {l : List α} (g : ℕ × α → β) (h : β → δ) (k : α → δ)
    (hg : ∀ i x, h (g (i, x)) = k x) : (l.enum.map g).map h = l.map k := by
  rw [List.map_map]
  have h1 : (h ∘ g) = fun p : ℕ × α => k p.2 := by
    funext p
    exact hg p.1 p.2
  rw [h1]
  have h2 : (fun p : ℕ × α => k p.2) = k ∘ Prod.snd := rfl
  rw [h2, ← List.map_map, List.enum_map_snd]

theorem forall₂_exists_right {R : α → β → Prop} {l1 : List α} {l2 : List β}
    (h : List.Forall₂ R l1 l2) {b : β} (hb : b ∈ l2) : ∃ a ∈ l1, R a b := by
  induction h with
  | nil => simp at hb
  | cons ha h2 ih =>
    rcases List.mem_cons.mp hb with rfl | hb2
    · exact ⟨_, List.mem_cons_self _ _, ha⟩
    · obtain ⟨a, ha2, hr⟩ := ih hb2
      exact ⟨a, List.mem_cons_of_mem _ ha2, hr⟩

theorem forall₂_exists_left {R : α → β → Prop} {l1 : List α} {l2 : List β}
    (h : List.Forall₂ R l1 l2) {a : α} (ha : a ∈ l1) : ∃ b ∈ l2, R a b := by
  induction h with
  | nil => simp at ha
  | cons hr h2 ih =>
    rcases List.mem_cons.mp ha with rfl | ha2
    · exact ⟨_, List.mem_cons_self _ _, hr⟩
    · obtain ⟨b, hb2, hr2⟩ := ih ha2
      exact ⟨b, List.mem_cons_of_mem _ hb2, hr2⟩

theorem forall₂_zip_map {β1 β2 γ : Type} {R1 : α → β1 → Prop} {R2 : α → β2 → Prop}
    (g : α → β1 → β2 → γ) {l : List α} {d : List β1} {p : List β2}
    (h1 : List.Forall₂ R1 l d) (h2 : List.Forall₂ R2 l p)
    (S : α → γ → Prop) (hS : ∀ a b1 b2, R1 a b1 → R2 a b2 → S a (g a b1 b2)) :
    List.Forall₂ S l ((l.zip (d.zip p)).map fun x => g x.1 x.2.1 x.2.2) := by
  induction h1 generalizing p with
  | nil =>
    cases h2
    exact List.Forall₂.nil
  | cons ha h1' ih =>
    cases h2 with
    | cons hb h2' =>
      rw [List.zip_cons_cons, List.zip_cons_cons, List.map_cons]
      exact List.Forall₂.cons (hS _ _ _ ha hb) (ih h2')

theorem map_enum_map_ids {l : List α} (g : ℕ × α → β) (h : β → ℕ)
    (hg : ∀ i x, h (g (i, x)) = i + 1) :
    (l.enum.map g).map h = List.range' 1 l.length := by
  rw [List.map_map]
  have h1 : (h ∘ g) = fun p : ℕ × α => p.1 + 1 := by
    funext p
    exact hg p.1 p.2
  rw [h1]
  have h2 : (fun p : ℕ × α => p.1 + 1) = (fun i => i + 1) ∘ Prod.fst := rfl
  rw [h2, ← List.map_map, List.enum_map_fst, List.range'_eq_map_range]
  apply List.map_congr_left
  intro i _
  omega

/-! ### Lemmas about Step 1 (calendar cleaning) -/

theorem datesOf_ok {rows : List CalRow} {ds : List Date} (h : datesOf rows = .ok ds) :
    List.Forall₂ (fun c d => parseDate c.date = some d) rows ds := by
  induction rows generalizing ds with
  | nil =>
    unfold datesOf at h
    injection h with h
    exact h ▸ List.Forall₂.nil
  | cons c cs ih =>
    unfold datesOf at h
    cases hp : parseDate c.date with
    | none => rw [hp] at h; simp at h
    | some d =>
      rw [hp] at h
      cases hr : datesOf cs with
      | error e => rw [hr] at h; simp [Except.map] at h
      | ok ds' =>
        rw [hr] at h
        simp only [Except.map] at h
        injection h with h
        exact h ▸ List.Forall₂.cons hp (ih hr)

theorem pricesOf_ok {rows : List CalRow} {ps : List Dec} (h : pricesOf rows = .ok ps) :
    List.Forall₂ (fun c q => parseFloat (stripCurrency c.price) = some q) rows ps := by
  induction rows generalizing ps with
  | nil =>
    unfold pricesOf at h
    injection h with h
    exact h ▸ List.Forall₂.nil
  | cons c cs ih =>
    unfold pricesOf at h
    cases hp : parseFloat (stripCurrency c.price) with
    | none => rw [hp] at h; simp at h
    | some q =>
      rw [hp] at h
      cases hr : pricesOf cs with
      | error e => rw [hr] at h; simp [Except.map] at h
      | ok ps' =>
        rw [hr] at h
        simp only [Except.map] at h
        injection h with h
        exact h ▸ List.Forall₂.cons hp (ih hr)

theorem cleanCalendar_ok {rows : List CalRow} {cal : List CleanCalRow}
    (h : cleanCalendar rows = .ok cal) :
    List.Forall₂ (fun (c : CalRow) (cc : CleanCalRow) =>
      cc.listing_id = c.listing_id ∧ parseDate c.date = some cc.date ∧
      parseFloat (stripCurrency c.price) = some cc.price ∧
      cc.occupied_flag = (if c.available = "t" then 0 else 1)) rows cal := by
  unfold cleanCalendar at h
  cases hd : datesOf rows with
  | error e => rw [hd] at h; simp at h
  | ok ds =>
    rw [hd] at h
    cases hp : pricesOf rows with
    | error e => rw [hp] at h; simp at h
    | ok ps =>
      rw [hp] at h
      injection h with h
      subst h
      exact forall₂_zip_map
        (fun (c : CalRow) (d : Date) (q : Dec) =>
          (⟨c.listing_id, d, q, if c.available = "t" then 0 else 1⟩ : CleanCalRow))
        (datesOf_ok hd) (pricesOf_ok hp) _
        (fun a b1 b2 h1 h2 => ⟨rfl, h1, h2, rfl⟩)

theorem datesOf_error {rows : List CalRow}
    (h : ∃ c ∈ rows, parseDate c.date = none) :
    ∃ s, datesOf rows = .error (.badDate s) ∧
      ∃ c ∈ rows, c.date = s ∧ parseDate s = none := by
  induction rows with
  | nil => simp at h
  | cons c cs ih =>
    cases hp : parseDate c.date with
    | none =>
      refine ⟨c.date, ?_, c, List.mem_cons_self _ _, rfl, hp⟩
      unfold datesOf
      rw [hp]
    | some d =>
      obtain ⟨c2, hc2, hc2p⟩ := h
      rcases List.mem_cons.mp hc2 with rfl | hc2m
      · exact absurd hp (by rw [hc2p]; simp)
      · obtain ⟨s, hs, c3, hc3, hc3d, hc3p⟩ := ih ⟨c2, hc2m, hc2p⟩
        refine ⟨s, ?_, c3, List.mem_cons_of_mem _ hc3, hc3d, hc3p⟩
        unfold datesOf
        rw [hp, hs]
        rfl

theorem pricesOf_error {rows : List CalRow}
    (h : ∃ c ∈ rows, parseFloat (stripCurrency c.price) = none) :
    ∃ s, pricesOf rows = .error (.badPrice s) ∧
      ∃ c ∈ rows, c.price = s ∧ parseFloat (stripCurrency s) = none := by
  induction rows with
  | nil => simp at h
  | cons c cs ih =>
    cases hp : parseFloat (stripCurrency c.price) with
    | none =>
      refine ⟨c.price, ?_, c, List.mem_cons_self _ _, rfl, hp⟩
      unfold pricesOf
      rw [hp]
    | some q =>
      obtain ⟨c2, hc2, hc2p⟩ := h
      rcases List.mem_cons.mp hc2 with rfl | hc2m
      · exact absurd hp (by rw [hc2p]; simp)
      · obtain ⟨s, hs, c3, hc3, hc3d, hc3p⟩ := ih ⟨c2, hc2m, hc2p⟩
        refine ⟨s, ?_, c3, List.mem_cons_of_mem _ hc3, hc3d, hc3p⟩
        unfold pricesOf
        rw [hp, hs]
        rfl

/-! ### Order lemmas on dates -/

theorem Date.lt_asymm {a b : Date} (h : Date.Lt a b) : ¬Date.Lt b a := by
  obtain ⟨y1, m1, d1⟩ := a
  obtain ⟨y2, m2, d2⟩ := b
  simp only [Date.Lt] at h ⊢
  omega

theorem Date.lt_irrefl (a : Date) : ¬Date.Lt a a := by
  obtain ⟨y1, m1, d1⟩ := a
  simp only [Date.Lt]
  omega

theorem Date.le_of_lt {a b : Date} (h : Date.Lt a b) : Date.Le a b := Or.inl h

theorem Date.lt_of_le_of_ne {a b : Date} (h : Date.Le a b) (hne : a ≠ b) :
    Date.Lt a b := by
  rcases h with h | h
  · exact h
  · exact absurd h hne

/-! ### Lemmas about Step 2 (merged listings) -/

theorem mem_mergedListings {ls : List ListRow} {ds : List DetRow} {m : MergedRow}
    (h : m ∈ mergedListings ls ds) :
    ∃ a ∈ ls, m.listing_id = a.listing_id ∧ m.name = a.name ∧
      m.host_name = a.host_name ∧ m.price = a.price ∧
      m.neighbourhood_cleansed = a.neighbourhood_cleansed ∧ m.city = a.city ∧
      m.latitude = a.latitude ∧ m.longitude = a.longitude := by
  obtain ⟨a, ha, hblk⟩ := mem_leftMerge_iff.mp h
  rcases mem_lmBlock_iff.mp hblk with ⟨_, rfl⟩ | ⟨b, _, rfl⟩ <;>
    exact ⟨a, ha, rfl, rfl, rfl, rfl, rfl, rfl, rfl, rfl⟩

theorem exists_merged_of_mem_listings {ls : List ListRow} {ds : List DetRow}
    {a : ListRow} (ha : a ∈ ls) :
    ∃ m ∈ mergedListings ls ds, m.listing_id = a.listing_id ∧
      m.latitude = a.latitude ∧ m.longitude = a.longitude ∧ m.city = a.city ∧
      m.neighbourhood_cleansed = a.neighbourhood_cleansed :=
  ⟨_, comb_find?_mem_leftMerge _ _ _ ha, rfl, rfl, rfl, rfl, rfl⟩

theorem dedupBy_id_lids_merged (ls : List ListRow) (ds : List DetRow) :
    dedupBy (fun k => k) ((mergedListings ls ds).map (·.listing_id)) =
      dedupBy (fun k => k) (ls.map (·.listing_id)) := by
  unfold mergedListings leftMerge
  rw [List.map_flatMap]
  unfold dedupBy
  refine dedupByAux_id_flatMap _ (fun a => a.listing_id) ls ?_ ?_ []
  · intro a _
    intro hc
    rw [List.map_eq_nil_iff] at hc
    exact lmBlock_ne_nil _ _ _ a hc
  · intro a _ x hx
    obtain ⟨m, hm, rfl⟩ := List.mem_map.mp hx
    rcases mem_lmBlock_iff.mp hm with ⟨_, rfl⟩ | ⟨b, _, rfl⟩ <;> rfl

theorem find?_mergedListings (ls : List ListRow) (ds : List DetRow) (k : String) :
    (mergedListings ls ds).find? (fun m => decide (m.listing_id = k)) =
      (ls.find? (fun a => decide (a.listing_id = k))).map fun a =>
        ⟨a.listing_id, a.name, a.host_name, a.price, a.neighbourhood_cleansed, a.city,
          a.latitude, a.longitude,
          (ds.find? (fun b => decide (a.listing_id = b.listing_id))).map (·.property_type),
          (ds.find? (fun b => decide (a.listing_id = b.listing_id))).map (·.room_type),
          (ds.find? (fun b => decide (a.listing_id = b.listing_id))).map (·.description)⟩ := by
  unfold mergedListings
  rw [find?_leftMerge _ (fun a => decide (a.listing_id = k)) (fun a bopt => rfl)]

/-! ### Lemmas about Step 3 (DIM_LISTING) -/

theorem dimListing_bk_map (merged : List MergedRow) :
    (dimListing merged).map (·.ListingID_BK) =
      dedupBy (fun k => k) (merged.map (·.listing_id)) := by
  unfold dimListing
  rw [map_enum_map mkDimListingRow _ (fun x : ListingSel => x.listing_id)
    (fun i x => rfl)]
  rw [dedupBy_dedupBy_id, map_dedupBy, List.map_map]
  rfl

theorem dimListing_bk_pairwise (merged : List MergedRow) :
    (dimListing merged).Pairwise (fun x y => x.ListingID_BK ≠ y.ListingID_BK) := by
  have h : ((dimListing merged).map (·.ListingID_BK)).Pairwise
      (fun x y : String => x ≠ y) := by
    rw [dimListing_bk_map]
    exact pairwise_keys_dedupByAux _ _ _
  exact List.pairwise_map.mp h

theorem dimListing_sur_map (merged : List MergedRow) :
    (dimListing merged).map (·.listing_id_surrogate) =
      List.range' 1 (dimListing merged).length := by
  unfold dimListing
  rw [map_enum_map_ids mkDimListingRow _ (fun i x => rfl), List.length_map,
    List.enum_length]

theorem dimListing_sur_inj {merged : List MergedRow} {x y : DimListingRow}
    (hx : x ∈ dimListing merged) (hy : y ∈ dimListing merged)
    (h : x.listing_id_surrogate = y.listing_id_surrogate) : x = y := by
  unfold dimListing at hx hy
  exact enum_map_val_inj mkDimListingRow (·.listing_id_surrogate) (fun i z => rfl)
    hx hy h

theorem mem_dimListing_attrs {merged : List MergedRow} {r : DimListingRow}
    (hr : r ∈ dimListing merged) :
    ∃ m0 ∈ merged,
      (merged.find? (fun m => decide (m.listing_id = r.ListingID_BK))) = some m0 ∧
      r.listing_name = m0.name ∧ r.property_type = m0.property_type ∧
      r.room_type = m0.room_type ∧ r.host = m0.host_name ∧
      r.description = m0.description := by
  unfold dimListing at hr
  obtain ⟨ip, hip, rfl⟩ := List.mem_map.mp hr
  have hx2 : ip.2 ∈ dedupBy (fun y : ListingSel => y.listing_id)
      (dedupBy (fun x => x) (merged.map projListing)) := by
    have hsnd := List.enum_map_snd (dedupBy (fun y : ListingSel => y.listing_id)
      (dedupBy (fun x => x) (merged.map projListing)))
    rw [← hsnd]
    exact List.mem_map.mpr ⟨ip, hip, rfl⟩
  have hfind : (dedupBy (fun y : ListingSel => y.listing_id)
      (dedupBy (fun x => x) (merged.map projListing))).find?
        (fun y => decide (y.listing_id = ip.2.listing_id)) = some ip.2 :=
    find?_eq_self_of_pairwise_keys (pairwise_keys_dedupByAux _ _ _) hx2
  rw [find?_dedupBy _ _ (fun u v huv => by rw [huv])] at hfind
  rw [find?_dedupBy _ _ (fun u v huv => by rw [huv])] at hfind
  rw [List.find?_map] at hfind
  cases hmf : merged.find?
      ((fun y : ListingSel => decide (y.listing_id = ip.2.listing_id)) ∘ projListing) with
  | none => rw [hmf] at hfind; simp at hfind
  | some m0 =>
    rw [hmf] at hfind
    replace hfind : projListing m0 = ip.2 := by simpa using hfind
    have hm0 : m0 ∈ merged := List.mem_of_find?_eq_some hmf
    refine ⟨m0, hm0, ?_, ?_, ?_, ?_, ?_, ?_⟩
    · rw [← hmf]
      exact find?_congrP _ _ _ (fun z _ => rfl)
    · show ip.2.name = m0.name
      rw [← hfind]
      rfl
    · show ip.2.property_type = m0.property_type
      rw [← hfind]
      rfl
    · show ip.2.room_type = m0.room_type
      rw [← hfind]
      rfl
    · show ip.2.host_name = m0.host_name
      rw [← hfind]
      rfl
    · show ip.2.description = m0.description
      rw [← hfind]
      rfl

/-! ### Lemmas about Step 4 (DIM_LOCATION and the mapping) -/

theorem dimLocation_covers {temp : List LocRow} {nbs : List NbRow} {t : LocRow}
    (ht : t ∈ temp) :
    ∃ loc ∈ dimLocation temp nbs, loc.neighborhood = t.neighborhood ∧
      loc.city = t.city ∧ loc.latitude = t.latitude ∧ loc.longitude = t.longitude := by
  obtain ⟨y, hy, hk⟩ := exists_key_mem_dedupByAux ht
    (show locKey t ∉ ([] : List (String × String × Dec × Dec)) from List.not_mem_nil _)
  have hy2 : y ∈ dedupBy locKey temp := hy
  have hin : ((y, ((nbs.map fun n => (normName n.neighbourhood, n.neighbourhood_group)).find?
      (fun b => decide (y.neighborhood = b.1))).map Prod.snd) : LocRow × Option String) ∈
      locBoroughMerge temp nbs :=
    comb_find?_mem_leftMerge _ _ _ hy2
  obtain ⟨i, _, hmem⟩ := mem_enum_map_of_mem mkDimLocationRow hin
  have hks : y.neighborhood = t.neighborhood ∧ y.city = t.city ∧
      y.latitude = t.latitude ∧ y.longitude = t.longitude := by
    have hk2 := hk
    simp only [locKey, Prod.mk.injEq] at hk2
    exact ⟨hk2.1, hk2.2.1, hk2.2.2.1, hk2.2.2.2⟩
  refine ⟨_, hmem, ?_, ?_, ?_, ?_⟩
  · exact hks.1
  · exact hks.2.1
  · exact hks.2.2.1
  · exact hks.2.2.2

theorem dimLocation_id_inj {temp : List LocRow} {nbs : List NbRow}
    {x y : DimLocationRow} (hx : x ∈ dimLocation temp nbs)
    (hy : y ∈ dimLocation temp nbs) (h : x.location_id = y.location_id) : x = y := by
  unfold dimLocation at hx hy
  exact enum_map_val_inj mkDimLocationRow (·.location_id) (fun i z => rfl) hx hy h

theorem dimLocation_quad_pairwise {temp : List LocRow} {nbs : List NbRow}
    (hnb : (nbs.map fun n => normName n.neighbourhood).Pairwise (· ≠ ·)) :
    ((dimLocation temp nbs).map fun r =>
      (r.neighborhood, r.city, r.latitude, r.longitude)).Pairwise (· ≠ ·) := by
  have hnb2 : (nbs.map fun n => (normName n.neighbourhood, n.neighbourhood_group)).Pairwise
      (fun x y => x.1 ≠ y.1) := by
    rw [List.pairwise_map]
    exact List.pairwise_map.mp hnb
  have huniq : ∀ a : LocRow,
      ((nbs.map fun n => (normName n.neighbourhood, n.neighbourhood_group)).filter
        (fun b => decide (a.neighborhood = b.1))).length ≤ 1 := by
    intro a
    exact length_filter_le_one_of_pairwise hnb2 _ a.neighborhood
      (fun x hx => (of_decide_eq_true hx).symm)
  unfold dimLocation locBoroughMerge
  rw [leftMerge_eq_map_of_unique huniq]
  rw [map_enum_map mkDimLocationRow _
    (fun ab : LocRow × Option String =>
      (ab.1.neighborhood, ab.1.city, ab.1.latitude, ab.1.longitude)) (fun i x => rfl)]
  rw [List.map_map]
  show ((dedupBy locKey temp).map locKey).Pairwise (· ≠ ·)
  rw [map_dedupBy]
  exact pairwise_keys_dedupByAux _ _ _

theorem mapping_lid_pairwise (temp : List LocRow) (dimLoc : List DimLocationRow) :
    (listingLocationMapping temp dimLoc).Pairwise
      (fun x y => x.listing_id ≠ y.listing_id) := by
  have h : ((listingLocationMapping temp dimLoc).map (·.listing_id)).Pairwise
      (fun x y : String => x ≠ y) := by
    unfold listingLocationMapping
    rw [map_dedupBy]
    exact pairwise_keys_dedupByAux _ _ _
  exact List.pairwise_map.mp h

theorem find?_mapping (temp : List LocRow) (dimLoc : List DimLocationRow) (k : String) :
    (listingLocationMapping temp dimLoc).find? (fun p => decide (p.listing_id = k)) =
      (temp.find? (fun t => decide (t.listing_id = k))).map fun t =>
        (⟨t.listing_id,
          (dimLoc.find? (fun d => decide (locKey t =
            (d.neighborhood, d.city, d.latitude, d.longitude)))).map (·.location_id)⟩ :
          MapRow) := by
  unfold listingLocationMapping
  rw [find?_dedupBy _ _ (fun u v huv => by rw [huv])]
  rw [find?_leftMerge _ (fun t => decide (t.listing_id = k)) (fun a bopt => rfl)]

theorem find?_tempLocation (merged : List MergedRow) (k : String) :
    (tempLocation merged).find? (fun t => decide (t.listing_id = k)) =
      (merged.find? (fun m => decide (m.listing_id = k))).map fun m =>
        (⟨m.listing_id, normName m.neighbourhood_cleansed, m.city, m.latitude,
          m.longitude⟩ : LocRow) := by
  unfold tempLocation
  rw [List.find?_map]
  congr 1

/-! ### Lemmas about Step 5 (DIM_DATE) -/

theorem dimDate_covers {cal : List CleanCalRow} {c : CleanCalRow} (hc : c ∈ cal) :
    ∃ row ∈ dimDate cal, row.full_date = c.date := by
  have hsel : dateSel c.date ∈ cal.map (fun c => dateSel c.date) :=
    List.mem_map.mpr ⟨c, hc, rfl⟩
  have hcov : ∃ y ∈ dedupByAux (fun x : DateSel => x) []
      (cal.map fun c => dateSel c.date),
      (fun x : DateSel => x) y = (fun x : DateSel => x) (dateSel c.date) :=
    exists_key_mem_dedupByAux hsel (List.not_mem_nil _)
  obtain ⟨y, hy, hk⟩ := hcov
  have hperm := List.perm_insertionSort dateSelLe
    (dedupBy (fun x => x) (cal.map fun c => dateSel c.date))
  have hys : y ∈ List.insertionSort dateSelLe
      (dedupBy (fun x => x) (cal.map fun c => dateSel c.date)) := hperm.mem_iff.mpr hy
  obtain ⟨i, _, hmem⟩ := mem_enum_map_of_mem mkDimDateRow hys
  refine ⟨_, hmem, ?_⟩
  show y.full_date = c.date
  have hyk : y = dateSel c.date := hk
  rw [hyk]
  rfl

theorem dimDate_map_fd (cal : List CleanCalRow) :
    (dimDate cal).map (·.full_date) =
      (List.insertionSort dateSelLe
        (dedupBy (fun x => x) (cal.map fun c => dateSel c.date))).map (·.full_date) := by
  unfold dimDate
  exact map_enum_map mkDimDateRow _ (fun x : DateSel => x.full_date) (fun i x => rfl)

theorem dimDate_id_map (cal : List CleanCalRow) :
    (dimDate cal).map (·.date_id) = List.range' 1 (dimDate cal).length := by
  unfold dimDate
  rw [map_enum_map_ids mkDimDateRow _ (fun i x => rfl), List.length_map,
    List.enum_length]

theorem dimDate_fd_pairwise (cal : List CleanCalRow) :
    (dimDate cal).Pairwise (fun x y => x.full_date ≠ y.full_date) := by
  have hdet : ∀ x ∈ dedupBy (fun x => x) (cal.map fun c => dateSel c.date),
      x = dateSel x.full_date := by
    intro x hx
    have hx2 : x ∈ cal.map (fun c => dateSel c.date) := mem_of_mem_dedupByAux hx
    obtain ⟨c, _, rfl⟩ := List.mem_map.mp hx2
    rfl
  have hnd : (dedupBy (fun x => x) (cal.map fun c => dateSel c.date)).Pairwise
      (fun x y : DateSel => x.full_date ≠ y.full_date) := by
    have hpw : (dedupBy (fun x => x) (cal.map fun c => dateSel c.date)).Pairwise
        (fun x y : DateSel => x ≠ y) := pairwise_keys_dedupByAux _ _ _
    refine hpw.imp_of_mem ?_
    intro a b ha hb hne he
    exact hne (by rw [hdet a ha, hdet b hb, he])
  have hnd2 : (List.insertionSort dateSelLe
      (dedupBy (fun x => x) (cal.map fun c => dateSel c.date))).Pairwise
      (fun x y : DateSel => x.full_date ≠ y.full_date) := by
    refine ((List.perm_insertionSort dateSelLe _).pairwise_iff ?_).mpr hnd
    intro a b h
    exact fun he => h he.symm
  have hmap : ((dimDate cal).map (·.full_date)).Pairwise (· ≠ ·) := by
    rw [dimDate_map_fd]
    exact List.pairwise_map.mpr hnd2
  exact List.pairwise_map.mp hmap

theorem dimDate_lt_pairwise (cal : List CleanCalRow) :
    (dimDate cal).Pairwise (fun x y => Date.Lt x.full_date y.full_date) := by
  have hsorted : (List.insertionSort dateSelLe
      (dedupBy (fun x => x) (cal.map fun c => dateSel c.date))).Pairwise dateSelLe :=
    List.sorted_insertionSort dateSelLe _
  have hle : (dimDate cal).Pairwise
      (fun x y => Date.Le x.full_date y.full_date) := by
    have hmap : ((dimDate cal).map (·.full_date)).Pairwise Date.Le := by
      rw [dimDate_map_fd]
      exact List.pairwise_map.mpr hsorted
    exact List.pairwise_map.mp hmap
  have hne := dimDate_fd_pairwise cal
  exact (hle.and hne).imp fun h => Date.lt_of_le_of_ne h.1 h.2

theorem dimDate_mono {cal : List CleanCalRow} {r1 r2 : DimDateRow}
    (h1 : r1 ∈ dimDate cal) (h2 : r2 ∈ dimDate cal)
    (hlt : Date.Lt r1.full_date r2.full_date) : r1.date_id < r2.date_id := by
  have hpw := dimDate_lt_pairwise cal
  obtain ⟨i, hi, rfl⟩ := List.mem_iff_getElem.mp h1
  obtain ⟨j, hj, rfl⟩ := List.mem_iff_getElem.mp h2
  have hlen : (dimDate cal).length = (List.insertionSort dateSelLe
      (dedupBy (fun x => x) (cal.map fun c => dateSel c.date))).enum.length := by
    unfold dimDate
    rw [List.length_map]
  have hidi : (dimDate cal)[i].date_id = i + 1 := by
    unfold dimDate
    rw [List.getElem_map, List.getElem_enum]
    rfl
  have hidj : (dimDate cal)[j].date_id = j + 1 := by
    unfold dimDate
    rw [List.getElem_map, List.getElem_enum]
    rfl
  rcases Nat.lt_trichotomy i j with h | h | h
  · omega
  · subst h
    exact absurd hlt (Date.lt_irrefl _)
  · exfalso
    have hrel := List.pairwise_iff_get.mp hpw ⟨j, hj⟩ ⟨i, hi⟩ h
    rw [List.get_eq_getElem, List.get_eq_getElem] at hrel
    exact Date.lt_asymm hlt hrel

/-! ### Lemmas about Step 6 (fact assembly) -/

theorem factStage0_mem {cal : List CleanCalRow} {m : FactMid}
    (h : m ∈ factStage0 cal) :
    ∃ c ∈ cal, m =
      { orig_listing_id := c.listing_id, date := c.date,
        daily_price := c.price, occupied_flag := c.occupied_flag } := by
  obtain ⟨c, hc, rfl⟩ := List.mem_map.mp h
  exact ⟨c, hc, rfl⟩

theorem factStage1_mem {s0 : List FactMid} {ls : List ListRow} {m1 : FactMid}
    (h : m1 ∈ factStage1 s0 ls) :
    ∃ m0 ∈ s0, ∃ po, m1 = { m0 with price := po } := by
  obtain ⟨a, ha, hblk⟩ := mem_leftMerge_iff.mp h
  rcases mem_lmBlock_iff.mp hblk with ⟨_, rfl⟩ | ⟨b, _, rfl⟩
  · exact ⟨a, ha, none, rfl⟩
  · exact ⟨a, ha, some b.price, rfl⟩

theorem factStage2_eq_map {s1 : List FactMid} {dimL : List DimListingRow}
    (hnd : dimL.Pairwise fun x y => x.ListingID_BK ≠ y.ListingID_BK) :
    factStage2 s1 dimL = s1.map fun m =>
      { m with listing_id := (dimL.find? fun d =>
          decide (m.orig_listing_id = d.ListingID_BK)).map (·.listing_id_surrogate) } := by
  unfold factStage2
  exact leftMerge_eq_map_of_unique fun m =>
    length_filter_le_one_of_pairwise hnd _ m.orig_listing_id
      (fun d hd => (of_decide_eq_true hd).symm)

theorem factStage3_eq_map {s2 : List FactMid} {mapping : List MapRow}
    (hnd : mapping.Pairwise fun x y => x.listing_id ≠ y.listing_id) :
    factStage3 s2 mapping = s2.map fun m =>
      { m with location_id := (mapping.find? fun p =>
          decide (m.orig_listing_id = p.listing_id)).bind (·.location_id) } := by
  unfold factStage3
  exact leftMerge_eq_map_of_unique fun m =>
    length_filter_le_one_of_pairwise hnd _ m.orig_listing_id
      (fun p hp => (of_decide_eq_true hp).symm)

theorem factStage4_eq_map {s3 : List FactMid} {dimD : List DimDateRow}
    (hnd : dimD.Pairwise fun x y => x.full_date ≠ y.full_date) :
    factStage4 s3 dimD = s3.map fun m =>
      { m with date_id := (dimD.find? fun d =>
          decide (m.date = d.full_date)).map (·.date_id) } := by
  unfold factStage4
  exact leftMerge_eq_map_of_unique fun m =>
    length_filter_le_one_of_pairwise hnd _ m.date
      (fun d hd => (of_decide_eq_true hd).symm)

theorem dimListing_bk_mem_listings {ls : List ListRow} {ds : List DetRow}
    {r : DimListingRow} (hr : r ∈ dimListing (mergedListings ls ds)) :
    r.ListingID_BK ∈ ls.map (·.listing_id) := by
  have h1 : r.ListingID_BK ∈ (dimListing (mergedListings ls ds)).map (·.ListingID_BK) :=
    List.mem_map.mpr ⟨r, hr, rfl⟩
  rw [dimListing_bk_map, dedupBy_id_lids_merged] at h1
  exact mem_of_mem_dedupByAux h1

theorem mapping_lid_mem_listings {ls : List ListRow} {ds : List DetRow}
    {dimLoc : List DimLocationRow} {p : MapRow}
    (hp : p ∈ listingLocationMapping (tempLocation (mergedListings ls ds)) dimLoc) :
    p.listing_id ∈ ls.map (·.listing_id) := by
  have h1 : p ∈ leftMerge (tempLocation (mergedListings ls ds)) dimLoc
      (fun a d => decide (locKey a = (d.neighborhood, d.city, d.latitude, d.longitude)))
      (fun a d => (⟨a.listing_id, d.map (·.location_id)⟩ : MapRow)) :=
    mem_of_mem_dedupByAux hp
  obtain ⟨a, ha, hblk⟩ := mem_leftMerge_iff.mp h1
  have hpa : p.listing_id = a.listing_id := by
    rcases mem_lmBlock_iff.mp hblk with ⟨_, rfl⟩ | ⟨b, _, rfl⟩ <;> rfl
  obtain ⟨m, hm, rfl⟩ := List.mem_map.mp ha
  obtain ⟨l, hl, hml, _⟩ := mem_mergedListings hm
  rw [hpa]
  exact List.mem_map.mpr ⟨l, hl, hml.symm⟩

theorem datesOf_error_inv {rows : List CalRow} {e : TErr}
    (h : datesOf rows = .error e) : ∃ c ∈ rows, parseDate c.date = none := by
  induction rows generalizing e with
  | nil => simp [datesOf] at h
  | cons c cs ih =>
    unfold datesOf at h
    cases hp : parseDate c.date with
    | none => exact ⟨c, List.mem_cons_self _ _, hp⟩
    | some d =>
      rw [hp] at h
      cases hr : datesOf cs with
      | error e2 =>
        obtain ⟨c2, hc2, hc2p⟩ := ih hr
        exact ⟨c2, List.mem_cons_of_mem _ hc2, hc2p⟩
      | ok ds => rw [hr] at h; simp [Except.map] at h

/-- Inverts a successful run into its constituent tables. -/
theorem transform_ok_parts {src : SourceTables} {R : StarSchema}
    (h : transform src = .ok R) :
    ∃ cal, cleanCalendar src.calendar = .ok cal ∧
      R.dim_listing = dimListing (mergedListings src.listings src.details) ∧
      R.dim_location =
        dimLocation (tempLocation (mergedListings src.listings src.details))
          src.neighbourhoods ∧
      R.dim_date = dimDate cal ∧
      R.fact_daily_revenue = factDailyRevenue cal src.listings
        (dimListing (mergedListings src.listings src.details))
        (listingLocationMapping (tempLocation (mergedListings src.listings src.details))
          (dimLocation (tempLocation (mergedListings src.listings src.details))
            src.neighbourhoods))
        (dimDate cal) ∧
      R.warnings = [] := by
  unfold transform at h
  cases hc : cleanCalendar src.calendar with
  | error e => rw [hc] at h; simp at h
  | ok cal =>
    rw [hc] at h
    injection h with h2
    subst h2
    exact ⟨cal, rfl, rfl, rfl, rfl, rfl, rfl⟩

/-- After the default-price merge, the three remaining key-resolution merges
are lookups against tables with unique keys, so the fact table is a pointwise
image of the stage-1 rows. -/
theorem fact_row_repr {cal : List CleanCalRow} {listings : List ListRow}
    {dimL : List DimListingRow} {mapping : List MapRow} {dimD : List DimDateRow}
    (hndL : dimL.Pairwise fun x y => x.ListingID_BK ≠ y.ListingID_BK)
    (hndM : mapping.Pairwise fun x y => x.listing_id ≠ y.listing_id)
    (hndD : dimD.Pairwise fun x y => x.full_date ≠ y.full_date) :
    factDailyRevenue cal listings dimL mapping dimD =
      (factStage1 (factStage0 cal) listings).map fun m =>
        (⟨(dimL.find? fun d =>
            decide (m.orig_listing_id = d.ListingID_BK)).map (·.listing_id_surrogate),
          m.daily_price, m.occupied_flag, m.price,
          (mapping.find? fun p =>
            decide (m.orig_listing_id = p.listing_id)).bind (·.location_id),
          (dimD.find? fun d => decide (m.date = d.full_date)).map (·.date_id)⟩ :
          FactRow) := by
  unfold factDailyRevenue
  rw [factStage2_eq_map hndL, factStage3_eq_map hndM, factStage4_eq_map hndD]
  rw [List.map_map, List.map_map, List.map_map]
  apply List.map_congr_left
  intro m _
  rfl

/-- C1: the claim states that the fact table always has exactly as many rows
as the calendar input, "regardless of duplicate keys in the listings ...
inputs", and the repository's own `DataSanityChecker.check_fact_row_count`
asserts exactly this equality.  The code violates it: the default-price
merge (line 164) left-merges the raw, non-deduplicated `listings_df`, so a
duplicated listing id multiplies the matching calendar rows.  On a one-row
calendar and a listings table with two rows for the same id the fact table
has two rows. -/
theorem fact_rowcount_not_conserved :
    dupListingSrc.calendar.length = 1 ∧
    (transform dupListingSrc).map (fun R => R.fact_daily_revenue.length) = .ok 2 := by
  constructor
  · decide
  · decide

/-- C2 (counterexample): `transform` is not side-effect free on its
arguments.  After the run, the caller's calendar table carries seven new
columns assigned in place (lines 46-50, 126-144 of the source), both
listings tables have `id` renamed in place (lines 54-55), and the
neighbourhoods table has its column names rewritten and a `neighborhood`
column added in place (lines 99-100): every one of the four input schemas
differs from what the caller supplied. -/
theorem transform_mutates_input_schemas :
    calendarColsAfterTransform calendarSourceCols ≠ calendarSourceCols ∧
    listingsColsAfterTransform listingsSourceCols ≠ listingsSourceCols ∧
    detailsColsAfterTransform detailsSourceCols ≠ detailsSourceCols ∧
    neighbourhoodsColsAfterTransform neighbourhoodsSourceCols ≠
      neighbourhoodsSourceCols := by
  refine ⟨?_, ?_, ?_, ?_⟩ <;> decide

/-- C2 (amended): `transform` mutates all four caller-supplied tables in
place: the calendar gains exactly the columns `occupied_flag`, `day`,
`month`, `year`, `quarter`, `week`, `season` (appended in this order, with
`date` and `price` retyped in place), the listings and listing-details
tables have `id` renamed to `listing_id`, and the neighbourhoods table keeps
its normalised column names and gains a normalised `neighborhood` column.
The four returned tables are newly constructed frames. -/
theorem transform_input_mutation_amended :
    calendarColsAfterTransform calendarSourceCols =
      calendarSourceCols ++
        ["occupied_flag", "day", "month", "year", "quarter", "week", "season"] ∧
    listingsColsAfterTransform listingsSourceCols =
      ["listing_id", "name", "host_name", "price", "neighbourhood_cleansed", "city",
       "latitude", "longitude"] ∧
    detailsColsAfterTransform detailsSourceCols =
      ["listing_id", "property_type", "room_type", "description"] ∧
    neighbourhoodsColsAfterTransform neighbourhoodsSourceCols =
      ["neighbourhood", "neighbourhood_group", "neighborhood"] := by
  refine ⟨?_, ?_, ?_, ?_⟩ <;> decide

/-- C3 (counterexample): the Location dimension's key is not the coordinate
pair alone.  Two listings rows sharing the coordinates (1, 2) but with
different cities produce two `dim_location` rows carrying the same
(latitude, longitude) pair, because the dedup key is the full (neighborhood,
city, latitude, longitude) quadruple (line 95 of the source). -/
theorem dim_location_duplicate_coordinate_pair :
    (transform sharedCoordSrc).map
      (fun R => R.dim_location.map fun r => (r.latitude, r.longitude)) =
    .ok [(⟨1, 1⟩, ⟨2, 1⟩), (⟨1, 1⟩, ⟨2, 1⟩)] := by decide

/-- C6: the two-row scenario of the specification.  The Listing dimension
has one row with surrogate 1 for `A123`; the Location dimension has one row
with surrogate 1; the Date dimension has two rows in ascending date order;
the fact table has two rows {listing 1, date 1, daily price 100.00, baseline
price 110, occupied 0} and {listing 1, date 2, daily price 120.50, baseline
price 110, occupied 1}.  The trailing conjuncts read the exact decimal
values back as rational numbers. -/
theorem two_row_scenario :
    (transform scenarioSrc).map
      (fun R => R.dim_listing.map fun r => (r.listing_id_surrogate, r.ListingID_BK)) =
      .ok [(1, "A123")] ∧
    (transform scenarioSrc).map (fun R => R.dim_location.map (·.location_id)) =
      .ok [1] ∧
    (transform scenarioSrc).map
      (fun R => R.dim_date.map fun r => (r.date_id, r.full_date)) =
      .ok [(1, ⟨2021, 1, 1⟩), (2, ⟨2021, 1, 2⟩)] ∧
    (transform scenarioSrc).map (fun R => R.fact_daily_revenue) =
      .ok [⟨some 1, ⟨10000, 100⟩, 0, some ⟨110, 1⟩, some 1, some 1⟩,
           ⟨some 1, ⟨12050, 100⟩, 1, some ⟨110, 1⟩, some 1, some 2⟩] ∧
    Dec.toRat ⟨10000, 100⟩ = 100 ∧ Dec.toRat ⟨12050, 100⟩ = 120.5 ∧
    Dec.toRat ⟨110, 1⟩ = 110 := by
  refine ⟨by decide, by decide, by decide, by decide, ?_, ?_, ?_⟩ <;>
    · rw [Dec.toRat]; norm_num

/-- C8 (counterexample): a calendar row whose listing id is missing from the
listings source is kept in the fact table with null listing and location
keys, but no warning is emitted: the transformation produces no diagnostics
at all (`warnings` is empty), contradicting the claim's "emits a warning". -/
theorem unmatched_listing_kept_without_warning :
    (transform orphanCalSrc).map
      (fun R => (R.fact_daily_revenue.map fun f => (f.listing_id, f.location_id),
        R.warnings)) =
    .ok ([(none, none)], []) := by decide

/-- C10 (counterexample): the fact table has no `default_price` column.  The
rename at line 170 targets `price_default`, a column that never exists
(`suffixes=('', '_default')` applies only to overlapping non-key names, and
the left frame's price column had already been renamed to `daily_price`), and
pandas' `rename` silently ignores missing keys, so the baseline price column
keeps the name `price`. -/
theorem fact_columns_no_default_price :
    "default_price" ∉ factCols ∧ "price" ∈ factCols := by
  constructor
  · decide
  · decide

/-- C10 (amended): the fact table's columns are exactly `daily_price`,
`occupied_flag`, `price` (the baseline price, under its unrenamed name),
`listing_id` (the surrogate), `location_id` and `date_id`, in this order;
in particular it carries no raw `latitude`, `longitude` or `date` column. -/
theorem fact_columns_amended :
    factCols = ["daily_price", "occupied_flag", "price", "listing_id",
      "location_id", "date_id"] ∧
    "latitude" ∉ factCols ∧ "longitude" ∉ factCols ∧ "date" ∉ factCols := by
  refine ⟨?_, ?_, ?_, ?_⟩ <;> decide

/-- C9: in the Date dimension, the surrogate keys are exactly the dense
sequence 1..N (in row order), every parsed calendar date appears, and the
keys assigned after sorting the distinct dates ascending are strictly
monotone in the date: whenever one dimension row's date precedes another's
chronologically, its `date_id` is strictly smaller. -/
theorem date_id_monotone (src : SourceTables) (R : StarSchema)
    (h : transform src = .ok R) :
    R.dim_date.map (·.date_id) = List.range' 1 R.dim_date.length ∧
    (∀ c ∈ src.calendar, ∀ d, parseDate c.date = some d →
      ∃ row ∈ R.dim_date, row.full_date = d) ∧
    ∀ r1 ∈ R.dim_date, ∀ r2 ∈ R.dim_date,
      Date.Lt r1.full_date r2.full_date → r1.date_id < r2.date_id := by
  obtain ⟨cal, hcal, _, _, hdd, _, _⟩ := transform_ok_parts h
  rw [hdd]
  refine ⟨dimDate_id_map cal, ?_, ?_⟩
  · intro c hc d hd
    obtain ⟨cc, hcc, hrel⟩ := forall₂_exists_left (cleanCalendar_ok hcal) hc
    obtain ⟨_, hdate, _, _⟩ := hrel
    rw [hd] at hdate
    have hdcc : d = cc.date := by injection hdate
    obtain ⟨row, hrow, hfd⟩ := dimDate_covers hcc
    exact ⟨row, hrow, by rw [hfd, hdcc]⟩
  · intro r1 h1 r2 h2 hlt
    exact dimDate_mono h1 h2 hlt

/-- C5: the Listing dimension has exactly one row per distinct listing id of
the listings source, in first-seen order (its business keys are the
first-occurrence deduplication of the source ids); surrogate keys are the
dense sequence 1..N in that order; and each row carries the attribute values
of the first source occurrence of its key (name and host from the first
listings row, type and description columns from the first matching
listing-details row, null when there is none). -/
theorem dim_listing_unique_first_seen_dense (src : SourceTables) (R : StarSchema)
    (h : transform src = .ok R) :
    R.dim_listing.map (·.ListingID_BK) =
      dedupBy (fun k => k) (src.listings.map (·.listing_id)) ∧
    R.dim_listing.map (·.listing_id_surrogate) =
      List.range' 1 R.dim_listing.length ∧
    ∀ r ∈ R.dim_listing, ∃ l0,
      src.listings.find? (fun x => decide (x.listing_id = r.ListingID_BK)) = some l0 ∧
      r.listing_name = l0.name ∧ r.host = l0.host_name ∧
      r.property_type = (src.details.find? (fun x =>
        decide (x.listing_id = r.ListingID_BK))).map (·.property_type) ∧
      r.room_type = (src.details.find? (fun x =>
        decide (x.listing_id = r.ListingID_BK))).map (·.room_type) ∧
      r.description = (src.details.find? (fun x =>
        decide (x.listing_id = r.ListingID_BK))).map (·.description) := by
  obtain ⟨cal, hcal, hdl, _, _, _, _⟩ := transform_ok_parts h
  rw [hdl]
  refine ⟨?_, ?_, ?_⟩
  · rw [dimListing_bk_map, dedupBy_id_lids_merged]
  · exact dimListing_sur_map _
  · intro r hr
    obtain ⟨m0, _, hfind, hn, hpt, hrt, hh, hdesc⟩ := mem_dimListing_attrs hr
    rw [find?_mergedListings] at hfind
    cases hlf : src.listings.find? (fun a => decide (a.listing_id = r.ListingID_BK)) with
    | none => rw [hlf] at hfind; simp at hfind
    | some l0 =>
      rw [hlf, Option.map_some'] at hfind
      replace hfind := Option.some_inj.mp hfind
      have hsome := List.find?_some hlf
      have heq : l0.listing_id = r.ListingID_BK := of_decide_eq_true hsome
      have hfd : src.details.find? (fun b => decide (l0.listing_id = b.listing_id)) =
          src.details.find? (fun x => decide (x.listing_id = r.ListingID_BK)) := by
        apply find?_congrP
        intro b _
        apply decide_eq_decide.mpr
        rw [heq]
        exact eq_comm
      refine ⟨l0, rfl, ?_, ?_, ?_, ?_, ?_⟩
      · rw [hn, ← hfind]
      · rw [hh, ← hfind]
      · rw [hpt, ← hfind, ← hfd]
      · rw [hrt, ← hfind, ← hfd]
      · rw [hdesc, ← hfind, ← hfd]

/-- C3 (amended): the Location dimension's natural key is the full
(normalised neighborhood, city, latitude, longitude) quadruple, not the
coordinate pair alone.  Provided the neighbourhood mapping has no duplicate
normalised neighbourhood names (otherwise the borough left-merge multiplies
rows), the dimension holds exactly one row per distinct quadruple occurring
in the listings source: the quadruples are pairwise distinct, and every
listings row's quadruple (hence every coordinate pair) appears. -/
theorem dim_location_quadruple_key_amended (src : SourceTables) (R : StarSchema)
    (h : transform src = .ok R)
    (hnb : (src.neighbourhoods.map fun n => normName n.neighbourhood).Pairwise (· ≠ ·)) :
    ((R.dim_location.map fun r =>
      (r.neighborhood, r.city, r.latitude, r.longitude)).Pairwise (· ≠ ·)) ∧
    ∀ l ∈ src.listings, ∃ loc ∈ R.dim_location,
      loc.neighborhood = normName l.neighbourhood_cleansed ∧ loc.city = l.city ∧
      loc.latitude = l.latitude ∧ loc.longitude = l.longitude := by
  obtain ⟨cal, hcal, _, hloc, _, _, _⟩ := transform_ok_parts h
  rw [hloc]
  constructor
  · exact dimLocation_quad_pairwise hnb
  · intro l hl
    obtain ⟨m, hm, hmlid, hmlat, hmlong, hmcity, hmnb⟩ :=
      exists_merged_of_mem_listings hl
    have ht : (⟨m.listing_id, normName m.neighbourhood_cleansed, m.city, m.latitude,
        m.longitude⟩ : LocRow) ∈ tempLocation (mergedListings src.listings src.details) :=
      List.mem_map.mpr ⟨m, hm, rfl⟩
    obtain ⟨loc, hlocmem, h1, h2, h3, h4⟩ := dimLocation_covers ht
    refine ⟨loc, hlocmem, ?_, ?_, ?_, ?_⟩
    · rw [h1]
      show normName m.neighbourhood_cleansed = normName l.neighbourhood_cleansed
      rw [hmnb]
    · rw [h2]
      exact hmcity
    · rw [h3]
      exact hmlat
    · rw [h4]
      exact hmlong

/-- C7: a calendar containing a malformed date string, or a price string not
parseable after stripping dollar signs and commas, makes the whole
transformation fail with an error naming the offending row's bad value, and
no output is produced (the result is an error, not a star schema); no
malformed value is coerced to zero or null. -/
theorem malformed_calendar_fails_batch (src : SourceTables)
    (h : ∃ c ∈ src.calendar, parseDate c.date = none ∨
      parseFloat (stripCurrency c.price) = none) :
    ∃ e, transform src = .error e ∧
      ∃ c ∈ src.calendar,
        ((∃ s, e = .badDate s ∧ c.date = s ∧ parseDate s = none) ∨
         (∃ s, e = .badPrice s ∧ c.price = s ∧ parseFloat (stripCurrency s) = none)) := by
  by_cases hd : ∃ c ∈ src.calendar, parseDate c.date = none
  · obtain ⟨s, hds, c, hc, hcs, hps⟩ := datesOf_error hd
    refine ⟨.badDate s, ?_, c, hc, Or.inl ⟨s, rfl, hcs, hps⟩⟩
    unfold transform cleanCalendar
    rw [hds]
  · have hp : ∃ c ∈ src.calendar, parseFloat (stripCurrency c.price) = none := by
      obtain ⟨c, hc, hcp⟩ := h
      rcases hcp with h1 | h2
      · exact absurd ⟨c, hc, h1⟩ hd
      · exact ⟨c, hc, h2⟩
    obtain ⟨s, hps2, c, hc, hcs, hps⟩ := pricesOf_error hp
    cases hds : datesOf src.calendar with
    | error e => exact absurd (datesOf_error_inv hds) hd
    | ok ds =>
      refine ⟨.badPrice s, ?_, c, hc, Or.inr ⟨s, rfl, hcs, hps⟩⟩
      unfold transform cleanCalendar
      rw [hds, hps2]

/-- C8 (amended): a calendar row whose listing id is absent from the
listings source is kept in the fact table as a row with explicit null
listing and location surrogate keys, carrying its parsed daily price and
occupancy flag — it is never dropped — but no warning is emitted: the
transformation produces no diagnostics at all. -/
theorem unmatched_listing_null_keys_amended (src : SourceTables) (R : StarSchema)
    (h : transform src = .ok R) (c : CalRow) (hc : c ∈ src.calendar)
    (hid : c.listing_id ∉ src.listings.map (·.listing_id)) :
    (∃ f ∈ R.fact_daily_revenue, f.listing_id = none ∧ f.location_id = none ∧
      parseFloat (stripCurrency c.price) = some f.daily_price ∧
      f.occupied_flag = (if c.available = "t" then 0 else 1)) ∧
    R.warnings = [] := by
  obtain ⟨cal, hcal, _, _, _, hfact, hw⟩ := transform_ok_parts h
  refine ⟨?_, hw⟩
  obtain ⟨cc, hcc, hlid, hdate, hprice, hflag⟩ :=
    forall₂_exists_left (cleanCalendar_ok hcal) hc
  rw [hfact, fact_row_repr (dimListing_bk_pairwise _) (mapping_lid_pairwise _ _)
    (dimDate_fd_pairwise _)]
  have hm0 :
      ({ orig_listing_id := cc.listing_id, date := cc.date,
         daily_price := cc.price, occupied_flag := cc.occupied_flag } : FactMid) ∈
        factStage0 cal :=
    List.mem_map.mpr ⟨cc, hcc, rfl⟩
  have hm1 :
      ({ orig_listing_id := cc.listing_id, date := cc.date,
         daily_price := cc.price, occupied_flag := cc.occupied_flag,
         price := none } : FactMid) ∈ factStage1 (factStage0 cal) src.listings := by
    refine mem_leftMerge_iff.mpr ⟨_, hm0, ?_⟩
    refine mem_lmBlock_iff.mpr (Or.inl ⟨?_, rfl⟩)
    rw [List.filter_eq_nil_iff]
    intro l hl hpl
    apply hid
    have hcl : cc.listing_id = l.listing_id := of_decide_eq_true hpl
    rw [← hlid, hcl]
    exact List.mem_map.mpr ⟨l, hl, rfl⟩
  have hfindL : (dimListing (mergedListings src.listings src.details)).find?
      (fun d => decide (cc.listing_id = d.ListingID_BK)) = none := by
    rw [List.find?_eq_none]
    intro d hd hdp
    apply hid
    rw [← hlid, of_decide_eq_true hdp]
    exact dimListing_bk_mem_listings hd
  have hfindM : (listingLocationMapping
      (tempLocation (mergedListings src.listings src.details))
      (dimLocation (tempLocation (mergedListings src.listings src.details))
        src.neighbourhoods)).find?
      (fun p => decide (cc.listing_id = p.listing_id)) = none := by
    rw [List.find?_eq_none]
    intro p hp hpp
    apply hid
    rw [← hlid, of_decide_eq_true hpp]
    exact mapping_lid_mem_listings hp
  refine ⟨_, List.mem_map.mpr ⟨_, hm1, rfl⟩, ?_, ?_, ?_, ?_⟩
  · show ((dimListing (mergedListings src.listings src.details)).find?
      (fun d => decide (cc.listing_id = d.ListingID_BK))).map (·.listing_id_surrogate) =
      none
    rw [hfindL]
    rfl
  · show ((listingLocationMapping
      (tempLocation (mergedListings src.listings src.details))
      (dimLocation (tempLocation (mergedListings src.listings src.details))
        src.neighbourhoods)).find?
      (fun p => decide (cc.listing_id = p.listing_id))).bind (·.location_id) = none
    rw [hfindM]
    rfl
  · show parseFloat (stripCurrency c.price) = some cc.price
    exact hprice
  · show cc.occupied_flag = (if c.available = "t" then 0 else 1)
    exact hflag

/-- C4: round-trip coordinate consistency.  For a fact row whose listing
surrogate key resolves, following that key to the Listing dimension, back to
the business key, and to the first occurrence of that listing in the
listings source gives coordinates that equal the ones reachable through the
fact row's location reference in the Location dimension (which exists and is
unique for the row's location key). -/
theorem fact_coordinate_roundtrip (src : SourceTables) (R : StarSchema)
    (h : transform src = .ok R) (f : FactRow) (hf : f ∈ R.fact_daily_revenue)
    (s : Nat) (hs : f.listing_id = some s) (r : DimListingRow)
    (hr : r ∈ R.dim_listing) (hrs : r.listing_id_surrogate = s) (l0 : ListRow)
    (hl0 : src.listings.find?
      (fun x => decide (x.listing_id = r.ListingID_BK)) = some l0) :
    ∃ n, f.location_id = some n ∧
      (∃ loc ∈ R.dim_location, loc.location_id = n) ∧
      ∀ loc ∈ R.dim_location, loc.location_id = n →
        loc.latitude = l0.latitude ∧ loc.longitude = l0.longitude := by
  obtain ⟨cal, hcal, hdl, hloc, hdd, hfact, _⟩ := transform_ok_parts h
  rw [hfact, fact_row_repr (dimListing_bk_pairwise _) (mapping_lid_pairwise _ _)
    (dimDate_fd_pairwise _)] at hf
  obtain ⟨m1, hm1, rfl⟩ := List.mem_map.mp hf
  obtain ⟨m0, hm0s, po, rfl⟩ := factStage1_mem hm1
  obtain ⟨cc, hccs, rfl⟩ := factStage0_mem hm0s
  rw [hdl] at hr
  rw [hloc]
  have hs2 : ((dimListing (mergedListings src.listings src.details)).find?
      (fun d => decide (cc.listing_id = d.ListingID_BK))).map
        (·.listing_id_surrogate) = some s := hs
  cases hfd : (dimListing (mergedListings src.listings src.details)).find?
      (fun d => decide (cc.listing_id = d.ListingID_BK)) with
  | none =>
    rw [hfd] at hs2
    exact absurd hs2 (by simp)
  | some d =>
    rw [hfd, Option.map_some'] at hs2
    replace hs2 : d.listing_id_surrogate = s := Option.some_inj.mp hs2
    have hdmem : d ∈ dimListing (mergedListings src.listings src.details) :=
      List.mem_of_find?_eq_some hfd
    have hsome := List.find?_some hfd
    have hdbk : cc.listing_id = d.ListingID_BK := of_decide_eq_true hsome
    have hrd : r = d := dimListing_sur_inj hr hdmem (by rw [hrs, hs2])
    have hcr : cc.listing_id = r.ListingID_BK := by
      rw [hrd]
      exact hdbk
    have hl0x : src.listings.find?
        (fun a => decide (a.listing_id = cc.listing_id)) = some l0 := by
      rw [← hl0]
      apply find?_congrP
      intro a _
      rw [hcr]
    cases hmf : (mergedListings src.listings src.details).find?
        (fun m => decide (m.listing_id = cc.listing_id)) with
    | none =>
      rw [find?_mergedListings, hl0x, Option.map_some'] at hmf
      exact absurd hmf (by simp)
    | some mr =>
      have hmr : mr ∈ mergedListings src.listings src.details :=
        List.mem_of_find?_eq_some hmf
      have hmreq : (⟨l0.listing_id, l0.name, l0.host_name, l0.price,
          l0.neighbourhood_cleansed, l0.city, l0.latitude, l0.longitude,
          (src.details.find? (fun b =>
            decide (l0.listing_id = b.listing_id))).map (·.property_type),
          (src.details.find? (fun b =>
            decide (l0.listing_id = b.listing_id))).map (·.room_type),
          (src.details.find? (fun b =>
            decide (l0.listing_id = b.listing_id))).map (·.description)⟩ :
          MergedRow) = mr := by
        have h2 := hmf
        rw [find?_mergedListings, hl0x, Option.map_some'] at h2
        exact Option.some_inj.mp h2
      have hlat : mr.latitude = l0.latitude := by
        rw [← hmreq]
      have hlong : mr.longitude = l0.longitude := by
        rw [← hmreq]
      have htemp : (tempLocation (mergedListings src.listings src.details)).find?
          (fun t => decide (t.listing_id = cc.listing_id)) =
          some ⟨mr.listing_id, normName mr.neighbourhood_cleansed, mr.city,
            mr.latitude, mr.longitude⟩ := by
        rw [find?_tempLocation, hmf, Option.map_some']
      have ht0 : (⟨mr.listing_id, normName mr.neighbourhood_cleansed, mr.city,
          mr.latitude, mr.longitude⟩ : LocRow) ∈
          tempLocation (mergedListings src.listings src.details) :=
        List.mem_map.mpr ⟨mr, hmr, rfl⟩
      obtain ⟨loc, hlocm, hn1, hn2, hn3, hn4⟩ := dimLocation_covers ht0
      cases hq : (dimLocation (tempLocation (mergedListings src.listings src.details))
          src.neighbourhoods).find? (fun dd =>
            decide (locKey ⟨mr.listing_id, normName mr.neighbourhood_cleansed,
              mr.city, mr.latitude, mr.longitude⟩ =
              (dd.neighborhood, dd.city, dd.latitude, dd.longitude))) with
      | none =>
        exfalso
        apply List.find?_eq_none.mp hq loc hlocm
        apply decide_eq_true
        show locKey ⟨mr.listing_id, normName mr.neighbourhood_cleansed, mr.city,
          mr.latitude, mr.longitude⟩ =
          (loc.neighborhood, loc.city, loc.latitude, loc.longitude)
        rw [hn1, hn2, hn3, hn4]
        rfl
      | some loc0 =>
        have hloc0m : loc0 ∈ dimLocation
            (tempLocation (mergedListings src.listings src.details))
            src.neighbourhoods := List.mem_of_find?_eq_some hq
        have hqs := List.find?_some hq
        have hquad : locKey (⟨mr.listing_id, normName mr.neighbourhood_cleansed,
            mr.city, mr.latitude, mr.longitude⟩ : LocRow) =
            (loc0.neighborhood, loc0.city, loc0.latitude, loc0.longitude) :=
          of_decide_eq_true hqs
        have hquad2 : loc0.latitude = mr.latitude ∧ loc0.longitude = mr.longitude := by
          simp only [locKey, Prod.mk.injEq] at hquad
          exact ⟨hquad.2.2.1.symm, hquad.2.2.2.symm⟩
        have hlat0 : loc0.latitude = l0.latitude := by
          rw [hquad2.1, hlat]
        have hlong0 : loc0.longitude = l0.longitude := by
          rw [hquad2.2, hlong]
        have hmap : (listingLocationMapping
            (tempLocation (mergedListings src.listings src.details))
            (dimLocation (tempLocation (mergedListings src.listings src.details))
              src.neighbourhoods)).find?
            (fun p => decide (p.listing_id = cc.listing_id)) =
            some ⟨mr.listing_id, some loc0.location_id⟩ := by
          rw [find?_mapping, htemp, Option.map_some', hq, Option.map_some']
        refine ⟨loc0.location_id, ?_, ⟨loc0, hloc0m, rfl⟩, ?_⟩
        · show ((listingLocationMapping
            (tempLocation (mergedListings src.listings src.details))
            (dimLocation (tempLocation (mergedListings src.listings src.details))
              src.neighbourhoods)).find?
            (fun p => decide (cc.listing_id = p.listing_id))).bind (·.location_id) =
            some loc0.location_id
          rw [find?_congrP _ _ _
            (fun p _ => decide_eq_decide.mpr (eq_comm (a := cc.listing_id))), hmap]
          rfl
        · intro loc2 hloc2 hid2
          have heq2 : loc2 = loc0 := dimLocation_id_inj hloc2 hloc0m hid2
          rw [heq2]
          exact ⟨hlat0, hlong0⟩

/-- Witness for C9 on a two-date calendar arriving out of order. -/
theorem date_id_monotone_witness :
    transform twoDateSrc = .ok (resOf twoDateSrc) ∧
    ((resOf twoDateSrc).dim_date.map (·.date_id) =
      List.range' 1 (resOf twoDateSrc).dim_date.length ∧
    (∀ c ∈ twoDateSrc.calendar, ∀ d, parseDate c.date = some d →
      ∃ row ∈ (resOf twoDateSrc).dim_date, row.full_date = d) ∧
    ∀ r1 ∈ (resOf twoDateSrc).dim_date, ∀ r2 ∈ (resOf twoDateSrc).dim_date,
      Date.Lt r1.full_date r2.full_date → r1.date_id < r2.date_id) :=
  ⟨by decide, date_id_monotone twoDateSrc (resOf twoDateSrc) (by decide)⟩

/-- Witness for C5 on a listings table with a duplicated natural key. -/
theorem dim_listing_unique_first_seen_dense_witness :
    transform dupKeySrc = .ok (resOf dupKeySrc) ∧
    ((resOf dupKeySrc).dim_listing.map (·.ListingID_BK) =
      dedupBy (fun k => k) (dupKeySrc.listings.map (·.listing_id)) ∧
    (resOf dupKeySrc).dim_listing.map (·.listing_id_surrogate) =
      List.range' 1 (resOf dupKeySrc).dim_listing.length ∧
    ∀ r ∈ (resOf dupKeySrc).dim_listing, ∃ l0,
      dupKeySrc.listings.find?
        (fun x => decide (x.listing_id = r.ListingID_BK)) = some l0 ∧
      r.listing_name = l0.name ∧ r.host = l0.host_name ∧
      r.property_type = (dupKeySrc.details.find? (fun x =>
        decide (x.listing_id = r.ListingID_BK))).map (·.property_type) ∧
      r.room_type = (dupKeySrc.details.find? (fun x =>
        decide (x.listing_id = r.ListingID_BK))).map (·.room_type) ∧
      r.description = (dupKeySrc.details.find? (fun x =>
        decide (x.listing_id = r.ListingID_BK))).map (·.description)) :=
  ⟨by decide, dim_listing_unique_first_seen_dense dupKeySrc (resOf dupKeySrc) (by decide)⟩

/-- Witness for the amended C3 on the shared-coordinate input. -/
theorem dim_location_quadruple_key_amended_witness :
    transform sharedCoordSrc = .ok (resOf sharedCoordSrc) ∧
    (sharedCoordSrc.neighbourhoods.map fun n => normName n.neighbourhood).Pairwise
      (· ≠ ·) ∧
    (((resOf sharedCoordSrc).dim_location.map fun r =>
      (r.neighborhood, r.city, r.latitude, r.longitude)).Pairwise (· ≠ ·) ∧
    ∀ l ∈ sharedCoordSrc.listings, ∃ loc ∈ (resOf sharedCoordSrc).dim_location,
      loc.neighborhood = normName l.neighbourhood_cleansed ∧ loc.city = l.city ∧
      loc.latitude = l.latitude ∧ loc.longitude = l.longitude) :=
  ⟨by decide, by decide,
    dim_location_quadruple_key_amended sharedCoordSrc (resOf sharedCoordSrc)
      (by decide) (by decide)⟩

/-- Witness for C7 on a calendar with a malformed date. -/
theorem malformed_calendar_fails_batch_witness :
    (∃ c ∈ badDateSrc.calendar, parseDate c.date = none ∨
      parseFloat (stripCurrency c.price) = none) ∧
    ∃ e, transform badDateSrc = .error e ∧
      ∃ c ∈ badDateSrc.calendar,
        ((∃ s, e = .badDate s ∧ c.date = s ∧ parseDate s = none) ∨
         (∃ s, e = .badPrice s ∧ c.price = s ∧
           parseFloat (stripCurrency s) = none)) :=
  ⟨by decide, malformed_calendar_fails_batch badDateSrc (by decide)⟩

/-- Witness for the amended C8 on the orphan-calendar input. -/
theorem unmatched_listing_null_keys_amended_witness :
    transform orphanCalSrc = .ok (resOf orphanCalSrc) ∧
    (⟨"X9", "2021-05-05", "f", "$7"⟩ : CalRow) ∈ orphanCalSrc.calendar ∧
    (⟨"X9", "2021-05-05", "f", "$7"⟩ : CalRow).listing_id ∉
      orphanCalSrc.listings.map (·.listing_id) ∧
    ((∃ f ∈ (resOf orphanCalSrc).fact_daily_revenue, f.listing_id = none ∧
        f.location_id = none ∧
        parseFloat (stripCurrency (⟨"X9", "2021-05-05", "f", "$7"⟩ : CalRow).price) =
          some f.daily_price ∧
        f.occupied_flag =
          (if (⟨"X9", "2021-05-05", "f", "$7"⟩ : CalRow).available = "t" then 0
            else 1)) ∧
      (resOf orphanCalSrc).warnings = []) :=
  ⟨by decide, by decide, by decide,
    unmatched_listing_null_keys_amended orphanCalSrc (resOf orphanCalSrc) (by decide)
      ⟨"X9", "2021-05-05", "f", "$7"⟩ (by decide) (by decide)⟩

/-- Witness for C4 on a matched one-listing, one-day input. -/
theorem fact_coordinate_roundtrip_witness :
    transform roundTripSrc = .ok (resOf roundTripSrc) ∧
    (⟨some 1, ⟨5, 1⟩, 0, some ⟨9, 1⟩, some 1, some 1⟩ : FactRow) ∈
      (resOf roundTripSrc).fact_daily_revenue ∧
    (⟨some 1, ⟨5, 1⟩, 0, some ⟨9, 1⟩, some 1, some 1⟩ : FactRow).listing_id =
      some 1 ∧
    (⟨1, "A", "n", none, none, "h", none⟩ : DimListingRow) ∈
      (resOf roundTripSrc).dim_listing ∧
    (⟨1, "A", "n", none, none, "h", none⟩ : DimListingRow).listing_id_surrogate = 1 ∧
    roundTripSrc.listings.find? (fun x => decide (x.listing_id =
      (⟨1, "A", "n", none, none, "h", none⟩ : DimListingRow).ListingID_BK)) =
      some ⟨"A", "n", "h", ⟨9, 1⟩, "NbN", "C", ⟨3, 1⟩, ⟨4, 1⟩⟩ ∧
    ∃ n, (⟨some 1, ⟨5, 1⟩, 0, some ⟨9, 1⟩, some 1, some 1⟩ : FactRow).location_id =
        some n ∧
      (∃ loc ∈ (resOf roundTripSrc).dim_location, loc.location_id = n) ∧
      ∀ loc ∈ (resOf roundTripSrc).dim_location, loc.location_id = n →
        loc.latitude =
          (⟨"A", "n", "h", ⟨9, 1⟩, "NbN", "C", ⟨3, 1⟩, ⟨4, 1⟩⟩ : ListRow).latitude ∧
        loc.longitude =
          (⟨"A", "n", "h", ⟨9, 1⟩, "NbN", "C", ⟨3, 1⟩, ⟨4, 1⟩⟩ : ListRow).longitude :=
  ⟨by decide, by decide, by decide, by decide, by decide, by decide,
    fact_coordinate_roundtrip roundTripSrc (resOf roundTripSrc) (by decide)
      ⟨some 1, ⟨5, 1⟩, 0, some ⟨9, 1⟩, some 1, some 1⟩ (by decide) 1 (by decide)
      ⟨1, "A", "n", none, none, "h", none⟩ (by decide) (by decide)
      ⟨"A", "n", "h", ⟨9, 1⟩, "NbN", "C", ⟨3, 1⟩, ⟨4, 1⟩⟩ (by decide)⟩

end Airbnb
